import Mathlib

set_option maxRecDepth 4000

/-!
# MacroAlpha — verification of the ETL pipeline against its specification

Shallow embedding of the MacroAlpha repository (`etl_import.py`,
`combine_memb.py`, `fix_dates.py`) in Lean 4, together with theorems
settling the spec claims about date parsing, value cleaning, loader
idempotence, error behaviour, the snapshot consolidator, the weekly-price
column mapper, company id assignment, and the date-fixing script.
-/

namespace MacroAlpha

/-! ## Calendar dates

`YMD` is a plain year/month/day triple.  `validYMD` is the validity check
performed by Python's `datetime` constructor (Gregorian month lengths,
years 1–9999). -/

structure YMD where
  y : Nat
  m : Nat
  d : Nat
  deriving DecidableEq, Repr

/-- Gregorian leap-year test, as in Python's `calendar.isleap`. -/
def isLeap (y : Nat) : Bool :=
  y % 4 == 0 && (y % 100 != 0 || y % 400 == 0)

/-- Number of days in a month (Gregorian). -/
def daysInMonth (y m : Nat) : Nat :=
  if m = 2 then (if isLeap y then 29 else 28)
  else if m = 4 ∨ m = 6 ∨ m = 9 ∨ m = 11 then 30
  else 31

/-- Validity check done by `datetime(year, month, day)`. -/
def validYMD (v : YMD) : Bool :=
  1 ≤ v.y && v.y ≤ 9999 && 1 ≤ v.m && v.m ≤ 12 && 1 ≤ v.d && v.d ≤ daysInMonth v.y v.m

/-! ## Digits and zero-padded rendering -/

/-- The ASCII digit character for `n` (meaningful for `n ≤ 9`). -/
def dch (n : Nat) : Char := Char.ofNat (48 + n)

/-- Two-digit zero-padded decimal rendering (`strftime` `%m`/`%d`). -/
def pad2 (n : Nat) : List Char := [dch (n / 10), dch (n % 10)]

/-- Four-digit zero-padded decimal rendering (`strftime` `%Y`). -/
def pad4 (n : Nat) : List Char :=
  [dch (n / 1000), dch (n / 100 % 10), dch (n / 10 % 10), dch (n % 10)]

/-- Read a single ASCII digit, as the `\d` atom of `strptime`'s regex. -/
def d1 (c : Char) : Option Nat :=
  if c.isDigit then some (c.toNat - 48) else none

/-- ISO rendering `YYYY-MM-DD` of a date (`strftime('%Y-%m-%d')`). -/
def isoChars (v : YMD) : List Char :=
  pad4 v.y ++ '-' :: (pad2 v.m ++ '-' :: pad2 v.d)

/-! ## `strptime` for the six formats of `parse_bloomberg_date`

Each format is a token list: `%Y` (exactly four digits), `%m` and `%d`
(one or two digits, greedy with backtracking, exactly as the `\d{1,2}`
regex fragment CPython compiles for them), and literal separators.  The
whole string must be consumed.  Range validation happens after the match,
as in CPython (`datetime.strptime` raises `ValueError` afterwards, which
`parse_bloomberg_date` catches). -/

inductive FTok where
  | Y : FTok
  | M : FTok
  | D : FTok
  | lit : Char → FTok
  deriving DecidableEq, Repr

/-- `'%Y-%m-%d'` -/
def fmtYMDdash : List FTok := [.Y, .lit '-', .M, .lit '-', .D]
/-- `'%m/%d/%Y'` -/
def fmtMDYslash : List FTok := [.M, .lit '/', .D, .lit '/', .Y]
/-- `'%d/%m/%Y'` -/
def fmtDMYslash : List FTok := [.D, .lit '/', .M, .lit '/', .Y]
/-- `'%Y/%m/%d'` -/
def fmtYMDslash : List FTok := [.Y, .lit '/', .M, .lit '/', .D]
/-- `'%d-%m-%Y'` -/
def fmtDMYdash : List FTok := [.D, .lit '-', .M, .lit '-', .Y]
/-- `'%m-%d-%Y'` -/
def fmtMDYdash : List FTok := [.M, .lit '-', .D, .lit '-', .Y]

/-- The format list of `parse_bloomberg_date`, in trial order. -/
def pyFormats : List (List FTok) :=
  [fmtYMDdash, fmtMDYslash, fmtDMYslash, fmtYMDslash, fmtDMYdash, fmtMDYdash]

/-- Regex-style matcher for a format against a character list, threading
the partially-filled date (defaults `1900-01-01` as in `strptime`).
`%m`/`%d` try two digits first and backtrack to one, with the rest of the
pattern as continuation — the same search the compiled regex performs. -/
def matchToks : List FTok → List Char → YMD → Option YMD
  | [], [], acc => some acc
  | [], _ :: _, _ => none
  | .lit _ :: _, [], _ => none
  | .lit c :: ts, x :: xs, acc =>
      if x = c then matchToks ts xs acc else none
  | .Y :: ts, c1 :: c2 :: c3 :: c4 :: xs, acc =>
      match d1 c1, d1 c2, d1 c3, d1 c4 with
      | some a, some b, some c, some d =>
          matchToks ts xs { acc with y := 1000 * a + 100 * b + 10 * c + d }
      | _, _, _, _ => none
  | .Y :: _, _, _ => none
  | .M :: ts, c1 :: c2 :: xs, acc =>
      (match d1 c1, d1 c2 with
       | some a, some b =>
           (matchToks ts xs { acc with m := 10 * a + b }).orElse
             (fun _ => matchToks ts (c2 :: xs) { acc with m := a })
       | some a, none => matchToks ts (c2 :: xs) { acc with m := a }
       | none, _ => none)
  | .M :: ts, [c1], acc =>
      (match d1 c1 with
       | some a => matchToks ts [] { acc with m := a }
       | none => none)
  | .M :: _, [], _ => none
  | .D :: ts, c1 :: c2 :: xs, acc =>
      (match d1 c1, d1 c2 with
       | some a, some b =>
           (matchToks ts xs { acc with d := 10 * a + b }).orElse
             (fun _ => matchToks ts (c2 :: xs) { acc with d := a })
       | some a, none => matchToks ts (c2 :: xs) { acc with d := a }
       | none, _ => none)
  | .D :: ts, [c1], acc =>
      (match d1 c1 with
       | some a => matchToks ts [] { acc with d := a }
       | none => none)
  | .D :: _, [], _ => none

/-- One `datetime.strptime(date_str, fmt)` attempt: match, then validate. -/
def tryFormat (f : List FTok) (cs : List Char) : Option YMD :=
  match matchToks f cs ⟨1900, 1, 1⟩ with
  | some v => if validYMD v then some v else none
  | none => none

/-- The `for fmt in formats: try … except: continue` loop. -/
def tryFormatsList : List (List FTok) → List Char → Option YMD
  | [], _ => none
  | f :: fs, cs =>
      match tryFormat f cs with
      | some v => some v
      | none => tryFormatsList fs cs

/-! ## Python `str.strip` on character lists -/

/-- Drop leading whitespace. -/
def dropWS (cs : List Char) : List Char :=
  cs.dropWhile fun c => c.isWhitespace

/-- Python `str.strip()`: drop whitespace from both ends. -/
def stripChars (cs : List Char) : List Char :=
  (dropWS (dropWS cs).reverse).reverse

/-- Python `str.strip()` packaged on `String`. -/
def stripStr (s : String) : String := String.mk (stripChars s.toList)

/-! ## `parse_bloomberg_date` (etl_import.py lines 51–72)

The input is missing (`pd.isna`), a `datetime`, or a string; a `datetime`
is formatted directly, a string is stripped and run through the six
formats in order. -/

inductive BBVal where
  | na : BBVal
  | dt : YMD → BBVal
  | str : String → BBVal
  deriving DecidableEq, Repr

/-- `parse_bloomberg_date`, returning the canonical `YYYY-MM-DD` string. -/
def parse_bloomberg_date : BBVal → Option String
  | .na => none
  | .dt v => some (String.mk (isoChars v))
  | .str s =>
      match tryFormatsList pyFormats (stripChars s.toList) with
      | some v => some (String.mk (isoChars v))
      | none => none

/-- Render a date in one of the six formats (`strftime`, zero-padded). -/
def renderFmt (f : List FTok) (v : YMD) : List Char :=
  f.flatMap fun t =>
    match t with
    | .Y => pad4 v.y
    | .M => pad2 v.m
    | .D => pad2 v.d
    | .lit c => [c]

/-! ## `clean_value` (etl_import.py lines 38–48)

The input is either missing (`pd.isna(val)` is true) or an arbitrary value
whose `str()` form we carry directly.  A successful `float()` call is
represented by the comma-stripped literal that parsed (`CleanVal.num`),
since the branch taken — not the binary floating-point value — is what the
claims are about. -/

inductive CVIn where
  | na : CVIn
  | val : String → CVIn
  deriving DecidableEq, Repr

inductive CleanVal where
  | null : CleanVal
  | num : String → CleanVal
  | strv : String → CleanVal
  deriving DecidableEq, Repr

/-- The sentinel strings mapped to `None`. -/
def pySentinels : List String :=
  ["#N/A", "--", "#N/A Requesting Data...", "N/A", ""]

/-- Remove every comma (`val_str.replace(',', '')`). -/
def removeCommas (cs : List Char) : List Char :=
  cs.filter fun c => decide (c ≠ ',')

/-- Digit group of Python's float literals: digits with single underscores
strictly between digits (`1_000` is legal, `_1`, `1_`, `1__2` are not). -/
def isDigitsU : List Char → Bool
  | [] => false
  | c :: cs => c.isDigit && isDigitsURest cs
where
  isDigitsURest : List Char → Bool
    | [] => true
    | '_' :: c :: cs => c.isDigit && isDigitsURest cs
    | '_' :: [] => false
    | c :: cs => c.isDigit && isDigitsURest cs

/-- Mantissa of a float literal: `D`, `D.`, `D.D` or `.D` with `D` a
digit group. -/
def isMantissa (cs : List Char) : Bool :=
  let intPart := cs.takeWhile fun c => decide (c ≠ '.')
  let rest := cs.dropWhile fun c => decide (c ≠ '.')
  match rest with
  | [] => isDigitsU intPart
  | _ :: frac =>
      (intPart.isEmpty || isDigitsU intPart) &&
      (frac.isEmpty || isDigitsU frac) &&
      !(intPart.isEmpty && frac.isEmpty) &&
      !(frac.any fun c => decide (c = '.'))

/-- Exponent part: optional sign then a digit group. -/
def isExponent : List Char → Bool
  | '+' :: cs => isDigitsU cs
  | '-' :: cs => isDigitsU cs
  | cs => isDigitsU cs

/-- Unsigned body of a float literal: `inf`, `infinity`, `nan`
(case-insensitive) or mantissa with optional exponent. -/
def isFloatBody (cs : List Char) : Bool :=
  let low := cs.map Char.toLower
  if low = ['i', 'n', 'f'] || low = ['i', 'n', 'f', 'i', 'n', 'i', 't', 'y'] ||
     low = ['n', 'a', 'n'] then
    true
  else
    let mant := cs.takeWhile fun c => decide (c ≠ 'e' ∧ c ≠ 'E')
    let rest := cs.dropWhile fun c => decide (c ≠ 'e' ∧ c ≠ 'E')
    match rest with
    | [] => isMantissa mant
    | _ :: ex => isMantissa mant && isExponent ex

/-- Python `float(s)` succeeds on `s` (already stripped of whitespace). -/
def isPyFloat : List Char → Bool
  | '+' :: cs => isFloatBody cs
  | '-' :: cs => isFloatBody cs
  | cs => isFloatBody cs

/-- `clean_value` (etl_import.py lines 38–48). -/
def clean_value : CVIn → CleanVal
  | .na => .null
  | .val s =>
      let t := stripStr s
      if t ∈ pySentinels then .null
      else
        let u := String.mk (removeCommas t.toList)
        if isPyFloat u.toList then .num u else .strv t

/-! ## The macro-indicator date map (etl_import.py lines 394–411)

`import_macro` assigns a `YYYY-MM-01` date string to every value column
`col = 2 + col_offset` by pure arithmetic on the offset.  The
`timedelta`-based `target_date` of line 404 is computed and discarded by
the source, so it is omitted; the dead `month <= 0` re-normalisation of
lines 408–410 is kept. -/

/-- Python `f"{n:02d}"` (zero-pad to width 2). -/
def py02d (n : Int) : String :=
  if 0 ≤ n ∧ n < 10 then "0" ++ toString n else toString n

/-- The `(year, month)` pair computed for value-column offset `k`. -/
def macroDatePair (k : Nat) : Int × Int :=
  let year : Int := 2024 - (k / 12 : Nat)
  let month : Int := 12 - (k % 12 : Nat)
  if month ≤ 0 then (year - 1, month + 12) else (year, month)

/-- The date string `f"{year}-{month:02d}-01"` stored in `date_map`. -/
def macroDateEntry (k : Nat) : String :=
  let p := macroDatePair k
  toString p.1 ++ "-" ++ py02d p.2 ++ "-01"

/-- The full `date_map` built by the loop: defined on columns
`2 ≤ col < ncols` where `ncols = df.shape[1]`. -/
def buildDateMap (ncols col : Nat) : Option String :=
  if 2 ≤ col ∧ col < ncols then some (macroDateEntry (col - 2)) else none

/-- Specification-side calendar step: the previous calendar month. -/
def prevMonth : Nat × Nat → Nat × Nat
  | (y, m) => if m = 1 then (y - 1, 12) else (y, m - 1)

/-- The calendar month exactly `k` months before December 2024. -/
def monthsBefore (k : Nat) : Nat × Nat := prevMonth^[k] (2024, 12)

/-- Specification-side rendering `YYYY-MM-01` of a month. -/
def ymFirstDay (p : Nat × Nat) : String :=
  toString p.1 ++ "-" ++ (if p.2 < 10 then "0" ++ toString p.2 else toString p.2) ++ "-01"

/-! ## SQLite insert semantics

`INSERT OR IGNORE` / `INSERT OR REPLACE` on a table with a uniqueness
constraint given by `key`.  Modelled from the spec: `schema.sql` is not
under `src/`; per the spec's data-model invariants each typed table has a
business-key uniqueness constraint (one membership row per
index/company/date, one financials row per company/period/type), so the
conflict target of the two insert forms is that key.  A table is the list
of its rows in storage order; `REPLACE` deletes every conflicting row and
appends the new one. -/

section Sqlite

variable {α κ : Type} [DecidableEq κ] (key : α → κ)

/-- Does some row of `t` carry key `k`? -/
def keyHit (t : List α) (k : κ) : Bool :=
  t.any fun x => decide (key x = k)

/-- `INSERT OR IGNORE`: keep the table if the key conflicts. -/
def insOrIgnore (t : List α) (r : α) : List α :=
  if keyHit key t (key r) then t else t ++ [r]

/-- `INSERT OR REPLACE`: delete conflicting rows, append the new row. -/
def insOrReplace (t : List α) (r : α) : List α :=
  (t.filter fun x => decide (key x ≠ key r)) ++ [r]

/-- Does the key of `x` occur among the keys of rows `rs`? -/
def hitBy (rs : List α) (x : α) : Bool :=
  rs.any fun r => decide (key x = key r)

/-- At most one row per key. -/
def uniqKeys (t : List α) : Prop :=
  t.Pairwise fun a b => key a ≠ key b

theorem hitBy_nil (x : α) : hitBy key [] x = false := rfl

theorem hitBy_cons (r : α) (rs : List α) (x : α) :
    hitBy key (r :: rs) x = (decide (key x = key r) || hitBy key rs x) := by
  simp [hitBy]

/-- Splitting a `REPLACE` fold over an appended table: the prefix is
filtered down to rows whose keys never occur in `rs`. -/
theorem foldl_replace_append (rs : List α) (t u : List α) :
    rs.foldl (insOrReplace key) (t ++ u) =
      (t.filter fun x => !(hitBy key rs x)) ++ rs.foldl (insOrReplace key) u := by
  induction rs generalizing t u with
  | nil =>
      simp [hitBy]
  | cons r rs ih =>
      have hstep : insOrReplace key (t ++ u) r =
          (t.filter fun x => decide (key x ≠ key r)) ++
            ((u.filter fun x => decide (key x ≠ key r)) ++ [r]) := by
        simp [insOrReplace, List.filter_append, List.append_assoc]
      calc (r :: rs).foldl (insOrReplace key) (t ++ u)
          = rs.foldl (insOrReplace key) (insOrReplace key (t ++ u) r) := by
            simp [List.foldl_cons]
        _ = rs.foldl (insOrReplace key)
              ((t.filter fun x => decide (key x ≠ key r)) ++
                ((u.filter fun x => decide (key x ≠ key r)) ++ [r])) := by rw [hstep]
        _ = ((t.filter fun x => decide (key x ≠ key r)).filter
              fun x => !(hitBy key rs x)) ++
              rs.foldl (insOrReplace key)
                ((u.filter fun x => decide (key x ≠ key r)) ++ [r]) := ih _ _
        _ = (t.filter fun x => !(hitBy key (r :: rs) x)) ++
              (r :: rs).foldl (insOrReplace key) u := by
            have h2 : rs.foldl (insOrReplace key)
                ((u.filter fun x => decide (key x ≠ key r)) ++ [r]) =
                (r :: rs).foldl (insOrReplace key) u := by
              simp [List.foldl_cons, insOrReplace]
            rw [List.filter_filter, h2]
            congr 1
            apply List.filter_congr
            intro x _
            rw [hitBy_cons]
            cases h1 : decide (key x = key r) with
            | true => simp [h1, decide_eq_true_eq.mp h1]
            | false =>
                have hne : key x ≠ key r := of_decide_eq_false h1
                simp [h1, hne]

/-- Rows of a `REPLACE` fold all come from the initial table or from the
inserted rows. -/
theorem mem_foldl_replace (rs : List α) (u : List α) (x : α)
    (hx : x ∈ rs.foldl (insOrReplace key) u) : x ∈ u ∨ x ∈ rs := by
  induction rs generalizing u with
  | nil => exact Or.inl hx
  | cons r rs ih =>
      rcases ih (insOrReplace key u r) (by simpa [List.foldl_cons] using hx) with h | h
      · rcases List.mem_append.mp h with h' | h'
        · exact Or.inl (List.mem_of_mem_filter h')
        · simp at h'
          subst h'
          exact Or.inr (List.mem_cons_self _ _)
      · exact Or.inr (List.mem_cons_of_mem _ h)

/-- Every row of the fold-from-empty has its key among the inserted rows. -/
theorem hitBy_of_mem_core (rs : List α) (x : α)
    (hx : x ∈ rs.foldl (insOrReplace key) []) : hitBy key rs x = true := by
  rcases mem_foldl_replace key rs [] x hx with h | h
  · simp at h
  · simp only [hitBy, List.any_eq_true]
    exact ⟨x, h, by simp⟩

theorem core_cons (r : α) (rs : List α) :
    (r :: rs).foldl (insOrReplace key) [] =
      (if hitBy key rs r then ([] : List α) else [r]) ++
        rs.foldl (insOrReplace key) [] := by
  have h1 : (r :: rs).foldl (insOrReplace key) [] =
      rs.foldl (insOrReplace key) ([r] ++ []) := by
    simp [List.foldl_cons, insOrReplace]
  rw [h1, foldl_replace_append]
  congr 1
  cases h : hitBy key rs r <;> simp [List.filter, h]

/-- Re-inserting the rows of a fold-from-empty gives the same table. -/
theorem core_idem (rs : List α) :
    rs.foldl (insOrReplace key) (rs.foldl (insOrReplace key) []) =
      rs.foldl (insOrReplace key) [] := by
  induction rs with
  | nil => rfl
  | cons r rs ih =>
      have hcore := core_cons key r rs
      have hfirst : ∀ (l : List α), (∀ x ∈ l, x ∈ rs.foldl (insOrReplace key) []) →
          (l.filter fun x => !(hitBy key rs x)) = [] := by
        intro l hl
        apply List.filter_eq_nil_iff.mpr
        intro x hx
        have := hitBy_of_mem_core key rs x (hl x hx)
        simp [this]
      cases h : hitBy key rs r with
      | true =>
          have hc : (r :: rs).foldl (insOrReplace key) [] =
              rs.foldl (insOrReplace key) [] := by
            rw [hcore]; simp [h]
          rw [hc]
          have hstep : insOrReplace key (rs.foldl (insOrReplace key) []) r =
              ((rs.foldl (insOrReplace key) []).filter
                fun x => decide (key x ≠ key r)) ++ [r] := rfl
          calc (r :: rs).foldl (insOrReplace key) (rs.foldl (insOrReplace key) [])
              = rs.foldl (insOrReplace key)
                  (((rs.foldl (insOrReplace key) []).filter
                    fun x => decide (key x ≠ key r)) ++ [r]) := by
                simp [List.foldl_cons, hstep]
            _ = (((rs.foldl (insOrReplace key) []).filter
                    fun x => decide (key x ≠ key r)).filter
                  fun x => !(hitBy key rs x)) ++
                  rs.foldl (insOrReplace key) [r] := foldl_replace_append key rs _ _
            _ = rs.foldl (insOrReplace key) [] := by
                rw [hfirst _ (fun x hx => List.mem_of_mem_filter hx)]
                have : rs.foldl (insOrReplace key) [r] =
                    (r :: rs).foldl (insOrReplace key) [] := by
                  simp [List.foldl_cons, insOrReplace]
                rw [this, hc]
                simp
      | false =>
          have hc : (r :: rs).foldl (insOrReplace key) [] =
              r :: rs.foldl (insOrReplace key) [] := by
            rw [hcore]; simp [h]
          rw [hc]
          have hkeys : ∀ x ∈ rs.foldl (insOrReplace key) [], key x ≠ key r := by
            intro x hx hkey
            have hhit := hitBy_of_mem_core key rs x hx
            rw [hitBy, List.any_eq_true] at hhit
            rcases hhit with ⟨rr, hrr, hdec⟩
            have h1 : key r = key rr := by
              rw [← hkey]
              exact decide_eq_true_eq.mp hdec
            have h2 : hitBy key rs r = true := by
              rw [hitBy, List.any_eq_true]
              exact ⟨rr, hrr, by simp [h1]⟩
            rw [h] at h2
            exact Bool.false_ne_true h2
          have hfilt : ((rs.foldl (insOrReplace key) []).filter
              fun x => decide (key x ≠ key r)) = rs.foldl (insOrReplace key) [] := by
            apply List.filter_eq_self.mpr
            intro x hx
            simpa using hkeys x hx
          have hstep : insOrReplace key (r :: rs.foldl (insOrReplace key) []) r =
              rs.foldl (insOrReplace key) [] ++ [r] := by
            show ((r :: rs.foldl (insOrReplace key) []).filter
                fun x => decide (key x ≠ key r)) ++ [r] = _
            rw [List.filter_cons, if_neg (by simp), hfilt]
          calc (r :: rs).foldl (insOrReplace key) (r :: rs.foldl (insOrReplace key) [])
              = rs.foldl (insOrReplace key)
                  (rs.foldl (insOrReplace key) [] ++ [r]) := by
                simp [List.foldl_cons, hstep]
            _ = ((rs.foldl (insOrReplace key) []).filter
                  fun x => !(hitBy key rs x)) ++ rs.foldl (insOrReplace key) [r] :=
                foldl_replace_append key rs _ _
            _ = r :: rs.foldl (insOrReplace key) [] := by
                rw [hfirst _ (fun x hx => hx)]
                have : rs.foldl (insOrReplace key) [r] =
                    (r :: rs).foldl (insOrReplace key) [] := by
                  simp [List.foldl_cons, insOrReplace]
                rw [this, hc]
                simp

/-- `INSERT OR REPLACE` loads are idempotent: replaying the same row list
leaves the table exactly as after the first load. -/
theorem foldl_replace_idem (rs : List α) (t : List α) :
    rs.foldl (insOrReplace key) (rs.foldl (insOrReplace key) t) =
      rs.foldl (insOrReplace key) t := by
  have hsplit : rs.foldl (insOrReplace key) t =
      (t.filter fun x => !(hitBy key rs x)) ++ rs.foldl (insOrReplace key) [] := by
    have := foldl_replace_append key rs t []
    simpa using this
  rw [hsplit, foldl_replace_append, core_idem, List.filter_filter]
  congr 1
  apply List.filter_congr
  intro x _
  cases h : hitBy key rs x <;> simp [h]

theorem keyHit_append (t u : List α) (k : κ) :
    keyHit key (t ++ u) k = (keyHit key t k || keyHit key u k) := by
  simp [keyHit]

/-- A present key stays present through an `IGNORE` fold. -/
theorem keyHit_mono (rs : List α) (t : List α) (k : κ)
    (h : keyHit key t k = true) :
    keyHit key (rs.foldl (insOrIgnore key) t) k = true := by
  induction rs generalizing t with
  | nil => exact h
  | cons r rs ih =>
      simp only [List.foldl_cons]
      apply ih
      unfold insOrIgnore
      cases hh : keyHit key t (key r) with
      | true => simpa using h
      | false => simp [keyHit_append, h]

/-- After an `IGNORE` fold every inserted row's key is present. -/
theorem keyHit_of_mem (rs : List α) (t : List α) (r : α) (hr : r ∈ rs) :
    keyHit key (rs.foldl (insOrIgnore key) t) (key r) = true := by
  induction rs generalizing t with
  | nil => cases hr
  | cons a rs ih =>
      rcases List.mem_cons.mp hr with h | h
      · subst h
        simp only [List.foldl_cons]
        apply keyHit_mono
        unfold insOrIgnore
        cases hh : keyHit key t (key r) with
        | true => exact hh
        | false => simp [keyHit_append, keyHit]
      · simp only [List.foldl_cons]
        exact ih _ h

/-- If every key to insert is already present, `IGNORE` does nothing. -/
theorem foldl_ignore_fixed (rs : List α) (t : List α)
    (h : ∀ r ∈ rs, keyHit key t (key r) = true) :
    rs.foldl (insOrIgnore key) t = t := by
  induction rs with
  | nil => rfl
  | cons r rs ih =>
      have h1 : insOrIgnore key t r = t := by
        unfold insOrIgnore
        rw [h r (List.mem_cons_self _ _)]
        simp
      simp only [List.foldl_cons, h1]
      exact ih fun x hx => h x (List.mem_cons_of_mem _ hx)

/-- `INSERT OR IGNORE` loads are idempotent. -/
theorem foldl_ignore_idem (rs : List α) (t : List α) :
    rs.foldl (insOrIgnore key) (rs.foldl (insOrIgnore key) t) =
      rs.foldl (insOrIgnore key) t :=
  foldl_ignore_fixed key rs _ fun r hr => keyHit_of_mem key rs t r hr

theorem uniqKeys_insOrIgnore (t : List α) (r : α) (h : uniqKeys key t) :
    uniqKeys key (insOrIgnore key t r) := by
  unfold insOrIgnore
  cases hh : keyHit key t (key r) with
  | true => exact h
  | false =>
      show uniqKeys key (t ++ [r])
      rw [uniqKeys, List.pairwise_append]
      refine ⟨h, List.pairwise_singleton _ _, ?_⟩
      intro x hx y hy
      have hy' : y = r := by simpa using hy
      rw [hy']
      intro hkey
      have : keyHit key t (key r) = true := by
        rw [keyHit, List.any_eq_true]
        exact ⟨x, hx, by simp [hkey]⟩
      rw [hh] at this
      exact Bool.false_ne_true this

theorem uniqKeys_insOrReplace (t : List α) (r : α) (h : uniqKeys key t) :
    uniqKeys key (insOrReplace key t r) := by
  rw [insOrReplace, uniqKeys, List.pairwise_append]
  refine ⟨List.Pairwise.filter _ h, List.pairwise_singleton _ _, ?_⟩
  intro x hx y hy
  have hy' : y = r := by simpa using hy
  rw [hy']
  have := List.of_mem_filter hx
  simpa using this

theorem uniqKeys_foldl_ignore (rs : List α) (t : List α) (h : uniqKeys key t) :
    uniqKeys key (rs.foldl (insOrIgnore key) t) := by
  induction rs generalizing t with
  | nil => exact h
  | cons r rs ih =>
      simp only [List.foldl_cons]
      exact ih _ (uniqKeys_insOrIgnore key t r h)

theorem uniqKeys_foldl_replace (rs : List α) (t : List α) (h : uniqKeys key t) :
    uniqKeys key (rs.foldl (insOrReplace key) t) := by
  induction rs generalizing t with
  | nil => exact h
  | cons r rs ih =>
      simp only [List.foldl_cons]
      exact ih _ (uniqKeys_insOrReplace key t r h)

end Sqlite

/-! ## Spreadsheet cells, Python dicts, and dataframe access

A cell is missing (`NaN`), a string, or a date (`pandas` parses the date
columns of the fixed exports into `datetime`).  `pyStrCell` is Python's
`str()` on the cell (`str(nan) = "nan"`, `str(datetime)` appends midnight).
A dataframe is its list of rows; out-of-range access yields `NaN`. -/

inductive XCell where
  | na : XCell
  | s : String → XCell
  | d : YMD → XCell
  deriving DecidableEq, Repr

def pyStrCell : XCell → String
  | .na => "nan"
  | .s v => v
  | .d v => String.mk (isoChars v) ++ " 00:00:00"

def cellToBB : XCell → BBVal
  | .na => .na
  | .s v => .str v
  | .d v => .dt v

def cellToCV : XCell → CVIn
  | .na => .na
  | .s v => .val v
  | .d v => .val (String.mk (isoChars v) ++ " 00:00:00")

/-- Python dict lookup (assoc list in insertion order). -/
def lookupD {β : Type} (m : List (String × β)) (k : String) : Option β :=
  (m.find? fun p => p.1 == k).map (·.2)

/-- Python dict assignment: overwrite in place, else append. -/
def dictInsert {β : Type} (m : List (String × β)) (k : String) (v : β) :
    List (String × β) :=
  if m.any fun p => p.1 == k then
    m.map fun p => if p.1 == k then (k, v) else p
  else m ++ [(k, v)]

def Grid : Type := List (List XCell)

/-- `df.iloc[r]` as a row list (empty when out of range). -/
def rowAt (g : Grid) (r : Nat) : List XCell := (g.get? r).getD []

/-- `df.iloc[r, c]` (missing for out-of-range access). -/
def cellAt (row : List XCell) (c : Nat) : XCell := (row.get? c).getD .na

/-- `df.shape[1]`. -/
def gridWidth (g : Grid) : Nat := (g.map List.length).foldr max 0

/-- Python truthiness of the `Optional[int]` company id (`None` and `0`
are falsy). -/
def pyTruthyNat : Option Nat → Bool
  | some n => decide (n ≠ 0)
  | none => false

/-! ## `import_companies` (etl_import.py lines 92–134)

A CSV row is its first cell (the ticker column accessed positionally) plus
the named columns reachable through `row.get`.  Modelled from the spec:
`schema.sql` is not under `src/`; `companies.company_id` is the
autoincrement integer primary key (SQLite assigns `max+1`, i.e.
`length+1` for a table only ever appended to), with ticker as the
conflict target of `INSERT OR IGNORE`. -/

structure CsvRow where
  first : XCell
  fields : List (String × XCell)
  deriving DecidableEq, Repr

def rowGet (r : CsvRow) (name : String) : XCell :=
  (lookupD r.fields name).getD .na

structure CompanyRec where
  ticker : String
  company_name : XCell
  country_id : Option String
  currency : XCell
  gics_sector_name : CleanVal
  gics_industry_group_name : CleanVal
  gics_industry_name : CleanVal
  gics_sub_industry_name : CleanVal
  current_market_cap : CleanVal
  is_active : Bool
  deriving DecidableEq, Repr

def mkCompanyRec (row : CsvRow) (tk : String) : CompanyRec where
  ticker := tk
  company_name := rowGet row "NAME"
  country_id :=
    match rowGet row "COUNTRY" with
    | .na => none
    | c => some (String.mk ((pyStrCell c).toList.take 2))
  currency := rowGet row "CRNCY"
  gics_sector_name := clean_value (cellToCV (rowGet row "GICS_SECTOR_NAME"))
  gics_industry_group_name := clean_value (cellToCV (rowGet row "GICS_INDUSTRY_GROUP_NAME"))
  gics_industry_name := clean_value (cellToCV (rowGet row "GICS_INDUSTRY_NAME"))
  gics_sub_industry_name := clean_value (cellToCV (rowGet row "GICS_SUB_INDUSTRY_NAME"))
  current_market_cap := clean_value (cellToCV (rowGet row "CUR_MKT_CAP"))
  is_active := true

/-- The `records` list: rows whose ticker is present, non-empty after
stripping, and not the `'#N/A'` sentinel. -/
def companiesRecords (rows : List CsvRow) : List CompanyRec :=
  rows.foldl (fun acc row =>
    match row.first with
    | .na => acc
    | c =>
        let tk := stripStr (pyStrCell c)
        if tk = "" ∨ tk = "#N/A" then acc else acc ++ [mkCompanyRec row tk]) []

structure CompanyRow where
  company_id : Nat
  row : CompanyRec
  deriving DecidableEq, Repr

/-- `INSERT OR IGNORE INTO companies`, with the autoincrement id. -/
def insertCompany (tb : List CompanyRow) (r : CompanyRec) : List CompanyRow :=
  if tb.any fun c => c.row.ticker == r.ticker then tb
  else tb ++ [⟨tb.length + 1, r⟩]

/-- `SELECT company_id FROM companies WHERE ticker = ?` (first match). -/
def dbCompanyLookup (companies : List CompanyRow) (tk : String) : Option Nat :=
  (companies.find? fun c => c.row.ticker == tk).map (·.company_id)

/-- `import_companies`: the updated table and the returned
`{ticker: i+1}` dictionary. -/
def import_companies (tb : List CompanyRow) (rows : List CsvRow) :
    List CompanyRow × List (String × Nat) :=
  let records := companiesRecords rows
  (records.foldl insertCompany tb,
   (records.enum.map fun p => (p.2.ticker, p.1 + 1)).foldl
     (fun m p => dictInsert m p.1 p.2) [])

/-! ## `import_index_membership` (etl_import.py lines 141–183)

Company resolution goes through the in-memory dictionary with a fallback
`SELECT`; Python truthiness (`if not company_id`) and the falsy-date check
(`if not as_of_date`) are kept.  The conflict key
`(index_id, company_id, as_of_date)` is the spec's membership invariant. -/

structure MembIn where
  ticker : XCell
  index_id : XCell
  as_of_date : XCell
  weight : XCell
  shares : XCell
  price : XCell
  deriving DecidableEq, Repr

structure MembRow where
  index_id : XCell
  company_id : Nat
  as_of_date : String
  weight : CleanVal
  shares_outstanding : CleanVal
  price : CleanVal
  deriving DecidableEq, Repr

def membKey (r : MembRow) : XCell × Nat × String :=
  (r.index_id, r.company_id, r.as_of_date)

/-- Dictionary hit (Python-truthy) or database fallback. -/
def membResolve (t2id : List (String × Nat)) (companies : List CompanyRow)
    (tk : String) : Option Nat :=
  let v := lookupD t2id tk
  if pyTruthyNat v then v else dbCompanyLookup companies tk

def membStep (companies : List CompanyRow) (t2id : List (String × Nat))
    (tb : List MembRow) (row : MembIn) : List MembRow :=
  let ticker := stripStr (pyStrCell row.ticker)
  match membResolve t2id companies ticker with
  | none => tb
  | some cid =>
      match parse_bloomberg_date (cellToBB row.as_of_date) with
      | none => tb
      | some ds =>
          if ds = "" then tb
          else
            insOrIgnore membKey tb
              ⟨row.index_id, cid, ds,
               clean_value (cellToCV row.weight),
               clean_value (cellToCV row.shares),
               clean_value (cellToCV row.price)⟩

def import_index_membership (companies : List CompanyRow)
    (t2id : List (String × Nat)) (tb : List MembRow) (rows : List MembIn) :
    List MembRow :=
  rows.foldl (membStep companies t2id) tb

/-! ## `import_financials` (etl_import.py lines 279–376)

Wide-table layout: tickers in row 3 every 7 columns, Bloomberg field codes
in row 5, data from row 6; resolution caches ids back into
`ticker_to_id`.  The conflict key `(company_id, period_end_date,
period_type)` is the spec's financials invariant. -/

def field_map : List (String × String) :=
  [("SALES_REV_TURN", "revenue"),
   ("EBITDA", "ebitda"),
   ("IS_INT_EXPENSE", "interest_expense"),
   ("CF_FREE_CASH_FLOW", "free_cash_flow"),
   ("GROSS_PROFIT", "gross_profit"),
   ("SHORT_AND_LONG_TERM_DEBT", "total_debt"),
   ("ARD_COST_OF_GOODS_SOLD", "cost_of_goods_sold")]

/-- Field-name → column dictionary for one ticker block of 7 columns. -/
def buildFieldCols (fieldRow : List XCell) (baseCol : Nat) : List (String × Nat) :=
  (List.range 7).foldl (fun acc fIdx =>
    let col := baseCol + fIdx
    if col < fieldRow.length then
      match cellAt fieldRow col with
      | .na => acc
      | c =>
          let field := stripStr (pyStrCell c)
          if field ≠ "" then
            match lookupD field_map field with
            | some name => dictInsert acc name col
            | none => acc
          else acc
    else acc) []

/-- The `ticker_fields` dictionary. -/
def buildTickerFields (tickerRow fieldRow : List XCell) :
    List (String × List (String × Nat)) :=
  let numTickers := (tickerRow.length - 1) / 7
  (List.range numTickers).foldl (fun acc tIdx =>
    let baseCol := 1 + tIdx * 7
    match cellAt tickerRow baseCol with
    | .na => acc
    | c =>
        let ticker := stripStr (pyStrCell c)
        if ticker ≠ "" ∧ ticker ≠ "#N/A Requesting Data..." then
          dictInsert acc ticker (buildFieldCols fieldRow baseCol)
        else acc) []

structure FinRow where
  company_id : Nat
  period_end_date : String
  period_type : String
  revenue : CleanVal
  ebitda : CleanVal
  interest_expense : CleanVal
  free_cash_flow : CleanVal
  gross_profit : CleanVal
  total_debt : CleanVal
  cost_of_goods_sold : CleanVal
  currency : CleanVal
  deriving DecidableEq, Repr

def finKey (r : FinRow) : Nat × String × String :=
  (r.company_id, r.period_end_date, r.period_type)

/-- Company resolution with write-back caching into `ticker_to_id`. -/
def resolveCached (companies : List CompanyRow) (m : List (String × Nat))
    (tk : String) : Option Nat × List (String × Nat) :=
  let v := lookupD m tk
  if pyTruthyNat v then (v, m)
  else
    match dbCompanyLookup companies tk with
    | some cid => (some cid, dictInsert m tk cid)
    | none => (none, m)

def finVals (dataRow : List XCell) (fieldCols : List (String × Nat)) :
    List (String × CleanVal) :=
  fieldCols.map fun p => (p.1, clean_value (cellToCV (cellAt dataRow p.2)))

/-- `values.get(name)` (absent fields load as NULL). -/
def valGet (vals : List (String × CleanVal)) (name : String) : CleanVal :=
  (lookupD vals name).getD .null

def mkFinRow (cid : Nat) (pdate ptype : String)
    (vals : List (String × CleanVal)) : FinRow :=
  ⟨cid, pdate, ptype,
   valGet vals "revenue", valGet vals "ebitda", valGet vals "interest_expense",
   valGet vals "free_cash_flow", valGet vals "gross_profit",
   valGet vals "total_debt", valGet vals "cost_of_goods_sold", .null⟩

def finTickStep (companies : List CompanyRow) (ptype : String)
    (dataRow : List XCell) (pdate : String)
    (st : List (String × Nat) × List FinRow)
    (tf : String × List (String × Nat)) :
    List (String × Nat) × List FinRow :=
  match resolveCached companies st.1 tf.1 with
  | (none, m') => (m', st.2)
  | (some cid, m') =>
      let vals := finVals dataRow tf.2
      if vals.all fun p => p.2 = .null then (m', st.2)
      else (m', insOrReplace finKey st.2 (mkFinRow cid pdate ptype vals))

def finRowStep (companies : List CompanyRow) (ptype : String)
    (tfields : List (String × List (String × Nat)))
    (st : List (String × Nat) × List FinRow) (dataRow : List XCell) :
    List (String × Nat) × List FinRow :=
  match parse_bloomberg_date (cellToBB (cellAt dataRow 0)) with
  | none => st
  | some ds =>
      if ds = "" then st
      else tfields.foldl (finTickStep companies ptype dataRow ds) st

def import_financials (companies : List CompanyRow) (g : Grid) (ptype : String)
    (t2id : List (String × Nat)) (tb : List FinRow) :
    List (String × Nat) × List FinRow :=
  let tfields := buildTickerFields (rowAt g 3) (rowAt g 5)
  (g.drop 6).foldl (finRowStep companies ptype tfields) (t2id, tb)

/-! ## `import_prices_weekly` (etl_import.py lines 190–272)

Two columns per ticker starting at column 1; tickers in row 3, field
labels in row 4, with the label-driven price/return column choice and its
positional fallbacks.  The conflict key `(company_id, price_date)` is the
spec's one-price-per-company-per-date shape. -/

def startsWithL : List Char → List Char → Bool
  | [], _ => true
  | _ :: _, [] => false
  | a :: as, b :: bs => a == b && startsWithL as bs

/-- Python `needle in hay` substring test. -/
def containsSub (needle : List Char) : List Char → Bool
  | [] => needle.isEmpty
  | c :: cs => startsWithL needle (c :: cs) || containsSub needle cs

def strContains (hay needle : String) : Bool :=
  containsSub needle.toList hay.toList

/-- `str(field_row.iloc[col]).strip() if col < len(field_row) and
pd.notna(field_row.iloc[col]) else ''`. -/
def weeklyFieldStr (fieldRow : List XCell) (col : Nat) : String :=
  if col < fieldRow.length then
    match cellAt fieldRow col with
    | .na => ""
    | c => stripStr (pyStrCell c)
  else ""

/-- The `price_col`/`return_col` choice for the block at `col`, with the
positional defaults when labels are absent. -/
def weeklyBlockCols (fieldRow : List XCell) (col : Nat) : Nat × Nat :=
  let field1 := weeklyFieldStr fieldRow col
  let field2 := weeklyFieldStr fieldRow (col + 1)
  (if strContains field1 "Price" then col
   else if strContains field2 "Price" then col + 1 else col,
   if strContains field2 "Return" then col + 1
   else if strContains field1 "Return" then col else col + 1)

/-- One pass bound for the `while col < len(ticker_row)` loop: the column
advances by 2 each iteration, so `tickerRow.length` iterations always
suffice. -/
def buildTickerColsGo (tickerRow fieldRow : List XCell) :
    Nat → Nat → List (String × Nat × Nat) → List (String × Nat × Nat)
  | 0, _, acc => acc
  | fuel + 1, col, acc =>
      if col < tickerRow.length then
        let acc' :=
          match cellAt tickerRow col with
          | .na => acc
          | c =>
              let ticker := stripStr (pyStrCell c)
              if ticker ≠ "" ∧ ticker ≠ "nan" ∧
                 ticker ≠ "#N/A Requesting Data..." then
                dictInsert acc ticker (weeklyBlockCols fieldRow col)
              else acc
        buildTickerColsGo tickerRow fieldRow fuel (col + 2) acc'
      else acc

/-- The `while col < len(ticker_row)` mapper loop (step 2). -/
def buildTickerCols (tickerRow fieldRow : List XCell) (col : Nat)
    (acc : List (String × Nat × Nat)) : List (String × Nat × Nat) :=
  buildTickerColsGo tickerRow fieldRow tickerRow.length col acc

structure PriceRow where
  company_id : Nat
  price_date : String
  close_price : CleanVal
  total_return : CleanVal
  deriving DecidableEq, Repr

def priceKey (r : PriceRow) : Nat × String := (r.company_id, r.price_date)

def priceTickStep (companies : List CompanyRow) (dataRow : List XCell)
    (ncols : Nat) (pdate : String)
    (st : List (String × Nat) × List PriceRow) (tc : String × Nat × Nat) :
    List (String × Nat) × List PriceRow :=
  match resolveCached companies st.1 tc.1 with
  | (none, m') => (m', st.2)
  | (some cid, m') =>
      let close :=
        if tc.2.1 ≠ 0 ∧ tc.2.1 < ncols then
          clean_value (cellToCV (cellAt dataRow tc.2.1))
        else .null
      let ret :=
        if tc.2.2 ≠ 0 ∧ tc.2.2 < ncols then
          clean_value (cellToCV (cellAt dataRow tc.2.2))
        else .null
      match close with
      | .null => (m', st.2)
      | v => (m', insOrIgnore priceKey st.2 ⟨cid, pdate, v, ret⟩)

def priceRowStep (companies : List CompanyRow)
    (tcols : List (String × Nat × Nat)) (ncols : Nat)
    (st : List (String × Nat) × List PriceRow) (dataRow : List XCell) :
    List (String × Nat) × List PriceRow :=
  match parse_bloomberg_date (cellToBB (cellAt dataRow 0)) with
  | none => st
  | some ds =>
      if ds = "" then st
      else tcols.foldl (priceTickStep companies dataRow ncols ds) st

def import_prices_weekly (companies : List CompanyRow) (g : Grid)
    (t2id : List (String × Nat)) (tb : List PriceRow) :
    List (String × Nat) × List PriceRow :=
  let tcols := buildTickerCols (rowAt g 3) (rowAt g 4) 1 []
  (g.drop 6).foldl (priceRowStep companies tcols (gridWidth g)) (t2id, tb)

/-! ## `import_interest_rates` (etl_import.py lines 470–520)

Hardcoded column map; unparsable dates skip a whole row, NULL values skip
a cell.  The conflict key `(country_id, rate_date, rate_type)` is the
spec's one-rate-per-country-per-date-per-type shape. -/

def rateColMap : List (Nat × String × String × String) :=
  [(1, "US", "10Y_YIELD", "USGG10YR Index"),
   (2, "GB", "10Y_YIELD", "GTGBP10Y Govt"),
   (3, "DE", "10Y_YIELD", "GTDEM10Y Govt"),
   (4, "JP", "10Y_YIELD", "GTJPY10Y Govt"),
   (5, "CN", "10Y_YIELD", "GTCNY10Y Govt"),
   (6, "US", "POLICY_RATE", "FDTR Index"),
   (7, "GB", "POLICY_RATE", "UKBRBASE Index"),
   (8, "DE", "POLICY_RATE", "EURR002W Index"),
   (9, "JP", "POLICY_RATE", "BOJDTR Index"),
   (10, "CN", "POLICY_RATE", "PBOC7P Index")]

structure RateRow where
  country_id : String
  rate_date : String
  rate_type : String
  bloomberg_ticker : String
  rate_value : CleanVal
  deriving DecidableEq, Repr

def rateKey (r : RateRow) : String × String × String :=
  (r.country_id, r.rate_date, r.rate_type)

def rateColStep (dataRow : List XCell) (ncols : Nat) (rdate : String)
    (tb : List RateRow) (e : Nat × String × String × String) : List RateRow :=
  if e.1 < ncols then
    match clean_value (cellToCV (cellAt dataRow e.1)) with
    | .null => tb
    | v => insOrIgnore rateKey tb ⟨e.2.1, rdate, e.2.2.1, e.2.2.2, v⟩
  else tb

def rateRowStep (ncols : Nat) (tb : List RateRow) (dataRow : List XCell) :
    List RateRow :=
  match parse_bloomberg_date (cellToBB (cellAt dataRow 0)) with
  | none => tb
  | some ds =>
      if ds = "" then tb
      else rateColMap.foldl (rateColStep dataRow ncols ds) tb

def import_interest_rates (g : Grid) (tb : List RateRow) : List RateRow :=
  (g.drop 6).foldl (fun t row => rateRowStep (gridWidth g) t row) tb

/-! ## `import_macro` (etl_import.py lines 383–463)

Indicator rows from row 2; the date axis is `buildDateMap`/`macroDateEntry`
on the column offset.  The conflict key
`(country_id, indicator_date, indicator_name)` is the one-value-per-
country-per-date-per-indicator shape of the spec's data model. -/

/-- Category classification from the lower-cased indicator name. -/
def macroCategory (name : String) : String :=
  let nl := String.mk (name.toList.map Char.toLower)
  if strContains nl "gdp" then "GDP"
  else if strContains nl "cpi" || strContains nl "price" ||
          strContains nl "inflation" then "CPI"
  else if strContains nl "unemploy" || strContains nl "employ" then "Employment"
  else if strContains nl "housing" || strContains nl "construction" then "Housing"
  else if strContains nl "rate" || strContains nl "yield" then "Rates"
  else if strContains nl "trade" || strContains nl "export" ||
          strContains nl "import" then "Trade"
  else "Other"

structure MacroRow where
  country_id : String
  indicator_date : String
  indicator_name : String
  bloomberg_ticker : Option String
  indicator_value : CleanVal
  indicator_category : String
  deriving DecidableEq, Repr

def macroKey (r : MacroRow) : String × String × String :=
  (r.country_id, r.indicator_date, r.indicator_name)

def macroRowStep (country : String) (ncols : Nat) (tb : List MacroRow)
    (dataRow : List XCell) : List MacroRow :=
  match cellAt dataRow 0 with
  | .na => tb
  | c0 =>
      let name := stripStr (pyStrCell c0)
      if name = "" ∨ name = "nan" then tb
      else
        let btk : Option String :=
          match cellAt dataRow 1 with
          | .na => none
          | c => some (stripStr (pyStrCell c))
        let cat := macroCategory name
        (List.range' 2 (ncols - 2)).foldl (fun tb col =>
          match clean_value (cellToCV (cellAt dataRow col)) with
          | .null => tb
          | v => insOrIgnore macroKey tb
              ⟨country, macroDateEntry (col - 2), name, btk, v, cat⟩) tb

def import_macro (g : Grid) (country : String) (tb : List MacroRow) :
    List MacroRow :=
  (g.drop 2).foldl (macroRowStep country (gridWidth g)) tb

/-! ## `combine_memb.py` — the snapshot consolidator

A source file is its name plus the dataframe `pd.read_excel` yields:
a header list and positional rows.  A `ValueError` anywhere aborts the
whole script before `index_membership_snapshot.csv` is written. -/

/-- Leftmost match of the regex `20\x5cd{2}` (as `re.search`). -/
def yearAt : List Char → Option Nat
  | '2' :: '0' :: a :: b :: _ =>
      if a.isDigit && b.isDigit then
        some (2000 + 10 * (a.toNat - 48) + (b.toNat - 48))
      else none
  | _ => none

def findYear : List Char → Option Nat
  | [] => none
  | c :: cs =>
      match yearAt (c :: cs) with
      | some y => some y
      | none => findYear cs

structure MembDF where
  cols : List String
  rows : List (List XCell)
  deriving Repr

structure MembFile where
  name : String
  df : MembDF
  deriving Repr

/-- One output row of the consolidated snapshot table; payload columns
are absent (`none`) when the source file lacked them. -/
structure SnapRow where
  index_id : String
  as_of_date : String
  ticker : String
  name : Option String
  weight : Option XCell
  shares : Option XCell
  price : Option XCell
  deriving DecidableEq, Repr

def snapKey (r : SnapRow) : String × String × String :=
  (r.index_id, r.as_of_date, r.ticker)

/-- Processing of one export file (the body of the `for f in files` loop). -/
def combineFile (f : MembFile) : Except String (List SnapRow) :=
  let index_id := String.mk (f.name.toList.take 3)
  match findYear f.name.toList with
  | none => .error ("Cannot find year in filename: " ++ f.name)
  | some year =>
      let as_of := toString year ++ "-12-31"
      let cols := f.df.cols.map stripStr
      match cols.findIdx? (fun c => c == "Ticker") with
      | none => .error (f.name ++ ": missing Ticker column")
      | some ti =>
          let rows := f.df.rows.filter fun r => decide (cellAt r ti ≠ .na)
          .ok (rows.map fun r =>
            { index_id := index_id
              as_of_date := as_of
              ticker := stripStr (pyStrCell (cellAt r ti))
              name := (cols.findIdx? (fun c => c == "Name")).map
                fun i => stripStr (pyStrCell (cellAt r i))
              weight := (cols.findIdx? (fun c => c == "Weight")).map (cellAt r)
              shares := (cols.findIdx? (fun c => c == "Shares")).map (cellAt r)
              price := (cols.findIdx? (fun c => c == "Price")).map (cellAt r) })

/-- The per-file loop: the first raised error aborts everything. -/
def combineFiles : List MembFile → Except String (List SnapRow)
  | [] => .ok []
  | f :: fs =>
      match combineFile f with
      | .error e => .error e
      | .ok rows =>
          match combineFiles fs with
          | .error e => .error e
          | .ok rest => .ok (rows ++ rest)

/-- Fueled core of `drop_duplicates` (the list length always suffices as
fuel, since filtering only shrinks the tail). -/
def dedupByGo {α κ : Type} [DecidableEq κ] (key : α → κ) :
    Nat → List α → List α
  | _, [] => []
  | 0, _ :: _ => []
  | fuel + 1, x :: xs =>
      x :: dedupByGo key fuel (xs.filter fun y => decide (key y ≠ key x))

/-- `drop_duplicates(subset=…)` keeping the first occurrence. -/
def dedupBy {α κ : Type} [DecidableEq κ] (key : α → κ) (l : List α) : List α :=
  dedupByGo key l.length l

/-- The whole consolidator: loop, concat, dedup; output written only on
success. -/
def combine_memb (files : List MembFile) : Except String (List SnapRow) :=
  match combineFiles files with
  | .error e => .error e
  | .ok out => .ok (dedupBy snapKey out)

/-! ## `fix_dates.py`

A worksheet is a cell function (1-based row/column as in `openpyxl`); a
filesystem maps names to worksheets.  `fix_date_column` loads, rewrites
column A from row 7, and saves; the `__main__` loop catches per-file
errors and continues. -/

def WS : Type := Nat → Nat → XCell

def setCell (ws : WS) (r c : Nat) (v : XCell) : WS :=
  fun r' c' => if r' = r ∧ c' = c then v else ws r' c'

/-- Fueled core of `for row in range(7, 28)` with the `year > 2024`
break (ANNUAL); `28 - row` iterations always suffice. -/
def annualGo : Nat → WS → Nat → WS
  | 0, ws, _ => ws
  | fuel + 1, ws, row =>
      if row < 28 then
        let year := 2005 + (row - 7)
        if year > 2024 then ws
        else annualGo fuel (setCell ws row 1 (.d ⟨year, 12, 31⟩)) (row + 1)
      else ws

def annualLoop (ws : WS) (row : Nat) : WS := annualGo (28 - row) ws row

def quarters : List (Nat × Nat) := [(3, 31), (6, 30), (9, 30), (12, 31)]

/-- Fueled core of `for row in range(7, 88)` with the `year > 2024`
break (QUARTERLY). -/
def quarterlyGo : Nat → WS → Nat → WS
  | 0, ws, _ => ws
  | fuel + 1, ws, row =>
      if row < 88 then
        let qidx := row - 7
        let year := 2005 + qidx / 4
        if year > 2024 then ws
        else
          let md := (quarters.get? (qidx % 4)).getD (0, 0)
          quarterlyGo fuel (setCell ws row 1 (.d ⟨year, md.1, md.2⟩)) (row + 1)
      else ws

def quarterlyLoop (ws : WS) (row : Nat) : WS := quarterlyGo (88 - row) ws row

def FS : Type := String → Option WS

/-- `fix_date_column`: load the workbook, rewrite column A, save. -/
def fix_date_column (fs : FS) (filename ptype : String) : Except String FS :=
  match fs filename with
  | none => .error ("No such file: " ++ filename)
  | some ws =>
      let ws' :=
        if ptype = "ANNUAL" then annualLoop ws 7
        else if ptype = "QUARTERLY" then quarterlyLoop ws 7
        else ws
      .ok fun n => if n = filename then some ws' else fs n

def fixDatesFiles : List (String × String) :=
  [("financials_annual.xlsx", "ANNUAL"),
   ("financials_quarterly.xlsx", "QUARTERLY"),
   ("financials_fiscal_annual.xlsx", "ANNUAL"),
   ("financials_fiscal_quarterly.xlsx", "QUARTERLY")]

/-- The `__main__` loop of fix_dates.py: each file in its own
`try/except`, so one failure does not stop the remaining files.  The log
records which files succeeded. -/
def fixDatesMain (fs : FS) : FS × List (String × Bool) :=
  fixDatesFiles.foldl (fun st p =>
    match fix_date_column st.1 p.1 p.2 with
    | .ok fs' => (fs', st.2 ++ [(p.1, true)])
    | .error _ => (st.1, st.2 ++ [(p.1, false)])) (fs, [])

/-! ## `main()` of etl_import.py (lines 527–585)

The import sequence inside the single `try`: an exception anywhere stops
every later import, is caught at top level, and leaves whatever was
already committed.  Files live in a grid filesystem. -/

def FSG : Type := String → Option Grid

structure EtlState where
  companies : List CompanyRow
  membership : List MembRow
  prices : List PriceRow
  financials : List FinRow
  macros : List MacroRow
  rates : List RateRow
  t2id : List (String × Nat)
  deriving Repr

def st0 : EtlState := ⟨[], [], [], [], [], [], []⟩

/-- `create_database`: read `schema.sql` and execute the DDL.  Modelled
from the spec: `schema.sql` is not under `src/`; executing it on the
fresh database produces the six empty typed tables, which the initial
state already is. -/
def stepCreate (fs : FSG) (st : EtlState) : Except String EtlState :=
  match fs "schema.sql" with
  | none => .error "No such file: schema.sql"
  | some _ => .ok st

/-- `pd.read_csv(…, skiprows=[0])`: row 1 is the header, data from row 2. -/
def csvRowsOfGrid (g : Grid) : List CsvRow :=
  let headers := (rowAt g 1).map pyStrCell
  (g.drop 2).map fun row => ⟨cellAt row 0, headers.zip row⟩

def stepCompanies (fs : FSG) (st : EtlState) : Except String EtlState :=
  match fs "company_master.csv" with
  | none => .error "No such file: company_master.csv"
  | some g =>
      let p := import_companies st.companies (csvRowsOfGrid g)
      .ok { st with companies := p.1, t2id := p.2 }

/-- `pd.read_csv` with named column access: a missing required column is
a `KeyError`. -/
def membRowsOfGrid (g : Grid) : Except String (List MembIn) :=
  let headers := (rowAt g 0).map pyStrCell
  match headers.findIdx? (· == "Ticker"), headers.findIdx? (· == "index_id"),
        headers.findIdx? (· == "as_of_date"), headers.findIdx? (· == "Weight"),
        headers.findIdx? (· == "Shares"), headers.findIdx? (· == "Price") with
  | some ti, some ii, some ai, some wi, some si, some pci =>
      .ok ((g.drop 1).map fun row =>
        ⟨cellAt row ti, cellAt row ii, cellAt row ai,
         cellAt row wi, cellAt row si, cellAt row pci⟩)
  | _, _, _, _, _, _ => .error "KeyError"

def stepMembership (fs : FSG) (st : EtlState) : Except String EtlState :=
  match fs "index_membership_snapshot.csv" with
  | none => .error "No such file: index_membership_snapshot.csv"
  | some g =>
      match membRowsOfGrid g with
      | .error e => .error e
      | .ok rows =>
          .ok { st with membership :=
                  import_index_membership st.companies st.t2id st.membership rows }

def stepPrices (fs : FSG) (st : EtlState) : Except String EtlState :=
  match fs "price_weekly.xlsx.xlsx" with
  | none => .error "No such file: price_weekly.xlsx.xlsx"
  | some g =>
      let p := import_prices_weekly st.companies g st.t2id st.prices
      .ok { st with prices := p.2, t2id := p.1 }

def stepFinAnnual (fs : FSG) (st : EtlState) : Except String EtlState :=
  match fs "financials_annual.xlsx" with
  | none => .error "No such file: financials_annual.xlsx"
  | some g =>
      let p := import_financials st.companies g "ANNUAL" st.t2id st.financials
      .ok { st with financials := p.2, t2id := p.1 }

/-- The quarterly file is guarded by an existence check and skipped
silently when absent. -/
def stepFinQuarterly (fs : FSG) (st : EtlState) : Except String EtlState :=
  match fs "financials_quarterly.xlsx" with
  | none => .ok st
  | some g =>
      let p := import_financials st.companies g "QUARTERLY" st.t2id st.financials
      .ok { st with financials := p.2, t2id := p.1 }

/-- Macro files are guarded by existence checks and skipped when absent. -/
def stepMacro (fs : FSG) (filename country : String) (st : EtlState) :
    Except String EtlState :=
  match fs filename with
  | none => .ok st
  | some g => .ok { st with macros := import_macro g country st.macros }

def stepRates (fs : FSG) (st : EtlState) : Except String EtlState :=
  match fs "5 countries 10y yield and policy rate.xlsx" with
  | none => .error "No such file: 5 countries 10y yield and policy rate.xlsx"
  | some g => .ok { st with rates := import_interest_rates g st.rates }

def etlSteps (fs : FSG) : List (EtlState → Except String EtlState) :=
  [stepCreate fs, stepCompanies fs, stepMembership fs, stepPrices fs,
   stepFinAnnual fs, stepFinQuarterly fs,
   stepMacro fs "usa_macros_2024~2005.xlsx" "US",
   stepMacro fs "uk_macros_2024~2005.xlsx" "GB",
   stepMacro fs "de_macros_2024~2005.xlsx" "DE",
   stepMacro fs "jp_macros_2024~2005.xlsx" "JP",
   stepMacro fs "cn_macros_2024~2005.xlsx" "CN",
   stepRates fs]

/-- The `try` block of `main`: run the steps in order; the first raised
exception stops everything after it and is caught at top level, leaving
the state committed so far, with the error printed. -/
def runSteps : List (EtlState → Except String EtlState) → EtlState →
    EtlState × Option String
  | [], st => (st, none)
  | s :: ss, st =>
      match s st with
      | .ok st' => runSteps ss st'
      | .error e => (st, some e)

def etl_main (fs : FSG) : EtlState × Option String :=
  runSteps (etlSteps fs) st0

/-! ## Stateless views of the importers (for the idempotence proofs)

The row a loader attempts to insert depends only on the inputs and on the
company-resolution function, not on the target table; these definitions
expose that mapped-row list. -/

/-- The id `resolveCached` yields, ignoring its cache write-back. -/
def resolveId (companies : List CompanyRow) (m : List (String × Nat))
    (tk : String) : Option Nat :=
  (resolveCached companies m tk).1

/-- The membership row a `membStep` call inserts, if any. -/
def membInsertRow (companies : List CompanyRow) (t2id : List (String × Nat))
    (row : MembIn) : Option MembRow :=
  let ticker := stripStr (pyStrCell row.ticker)
  match membResolve t2id companies ticker with
  | none => none
  | some cid =>
      match parse_bloomberg_date (cellToBB row.as_of_date) with
      | none => none
      | some ds =>
          if ds = "" then none
          else
            some ⟨row.index_id, cid, ds,
                  clean_value (cellToCV row.weight),
                  clean_value (cellToCV row.shares),
                  clean_value (cellToCV row.price)⟩

/-- The financials row a `finTickStep` call inserts, if any. -/
def finTickInsert (res : String → Option Nat) (ptype : String)
    (dataRow : List XCell) (pdate : String)
    (tf : String × List (String × Nat)) : Option FinRow :=
  match res tf.1 with
  | none => none
  | some cid =>
      let vals := finVals dataRow tf.2
      if vals.all fun p => p.2 = .null then none
      else some (mkFinRow cid pdate ptype vals)

/-- The rows one data row of `import_financials` inserts. -/
def finRowInserts (res : String → Option Nat) (ptype : String)
    (tfields : List (String × List (String × Nat))) (dataRow : List XCell) :
    List FinRow :=
  match parse_bloomberg_date (cellToBB (cellAt dataRow 0)) with
  | none => []
  | some ds =>
      if ds = "" then []
      else tfields.filterMap (finTickInsert res ptype dataRow ds)

/-- All rows an `import_financials` run inserts. -/
def finInserts (res : String → Option Nat) (ptype : String)
    (tfields : List (String × List (String × Nat)))
    (rows : List (List XCell)) : List FinRow :=
  (rows.map (finRowInserts res ptype tfields)).flatten

/-! ## Concrete fixtures used by witness and counterexample theorems -/

def wsBlank : WS := fun _ _ => XCell.na

def fsOne : FS := fun n => if n = "financials_annual.xlsx" then some wsBlank else none

def cxFiles : List MembFile :=
  [{ name := "SPX as of 2020.xlsx",
     df := { cols := ["Ticker"],
             rows := [[.s "AAPL UW Equity"], [.s "AAPL UW Equity"],
                      [.s "MSFT UW Equity"]] } }]

/-- The consolidated snapshot the fixture should produce (AAPL
deduplicated). -/
def cxOut : List SnapRow :=
  [{ index_id := "SPX", as_of_date := "2020-12-31",
     ticker := "AAPL UW Equity", name := none, weight := none,
     shares := none, price := none },
   { index_id := "SPX", as_of_date := "2020-12-31",
     ticker := "MSFT UW Equity", name := none, weight := none,
     shares := none, price := none }]

def c3t2id : List (String × Nat) := [("AAPL UW Equity", 1)]

def c3MembRows : List MembIn :=
  [{ ticker := .s "AAPL UW Equity", index_id := .s "SPX",
     as_of_date := .s "2020-12-31", weight := .na, shares := .na,
     price := .na }]

def c3Grid : Grid :=
  [[], [], [],
   [.na, .s "AAPL UW Equity", .na, .na, .na, .na, .na, .na],
   [],
   [.na, .s "SALES_REV_TURN"],
   [.d { y := 2020, m := 12, d := 31 }, .s "100"]]

def c9Rows : List CsvRow :=
  [{ first := .s "AAPL UW Equity", fields := [] },
   { first := .s "MSFT UW Equity", fields := [] }]

/-- A filesystem holding only the quarterly workbook: the first file of
the fix_dates run is missing. -/
def fsQonly : FS :=
  fun n => if n = "financials_quarterly.xlsx" then some wsBlank else none

/-- A membership export whose filename contains no year. -/
def c5File : MembFile := { name := "bad.xlsx", df := { cols := ["Ticker"], rows := [] } }

/-- An empty grid filesystem: even schema.sql is missing. -/
def fsgEmpty : FSG := fun _ => none

/-! # Theorems -/

/-! ## C1 — the macro-indicator date axis -/

theorem toString_int_ofNat (n : Nat) : toString ((n : Nat) : Int) = toString n := rfl

theorem monthsBefore_closed (k : Nat) (hk : k < 24288) :
    monthsBefore k = (2024 - k / 12, 12 - k % 12) := by
  induction k with
  | zero => rfl
  | succ k ih =>
      have hk' : k < 24288 := by omega
      have h1 : monthsBefore (k + 1) = prevMonth (monthsBefore k) :=
        Function.iterate_succ_apply' _ _ _
      rw [h1, ih hk']
      simp only [prevMonth]
      split_ifs with h
      · simp only [Prod.mk.injEq]
        exact ⟨by omega, by omega⟩
      · simp only [Prod.mk.injEq]
        exact ⟨by omega, by omega⟩

theorem macroDateEntry_eq (k : Nat) (hk : k < 24288) :
    macroDateEntry k = ymFirstDay (2024 - k / 12, 12 - k % 12) := by
  have hmod : k % 12 < 12 := Nat.mod_lt _ (by norm_num)
  have hc1 : ((2024 : Int) - ((k / 12 : Nat) : Int)) = ((2024 - k / 12 : Nat) : Int) := by
    have : k / 12 ≤ 2023 := by omega
    omega
  have hc2 : ((12 : Int) - ((k % 12 : Nat) : Int)) = ((12 - k % 12 : Nat) : Int) := by
    omega
  have hpos : ¬ ((12 : Int) - ((k % 12 : Nat) : Int) ≤ 0) := by omega
  simp only [macroDateEntry, macroDatePair, hpos, if_false]
  rw [hc1, hc2, toString_int_ofNat]
  unfold ymFirstDay
  congr 1
  congr 1
  by_cases hm : 12 - k % 12 < 10
  · have hmi : ((12 - k % 12 : Nat) : Int) < 10 := by exact_mod_cast hm
    have hmi0 : (0 : Int) ≤ ((12 - k % 12 : Nat) : Int) := by positivity
    simp only [py02d, hm, if_true, hmi, hmi0, and_self, toString_int_ofNat]
  · have hmi : ¬ (((12 - k % 12 : Nat) : Int) < 10) := by
      intro hcon
      exact hm (by exact_mod_cast hcon)
    simp only [py02d, hm, if_false, toString_int_ofNat]
    rw [if_neg (by intro hcon; exact hmi hcon.2)]

/-- **C1.** For every value-column offset `k` (dataframe column `2 + k`),
`import_macro`'s date map assigns the `YYYY-MM-01` string of the first
day of the calendar month exactly `k` months before December 2024, whose
year/month are `2024 - k / 12` and `12 - k % 12`, the month always lying
between 1 and 12. -/
theorem macro_date_axis (ncols k : Nat) (hcol : 2 + k < ncols) (hk : k < 24288) :
    buildDateMap ncols (2 + k) = some (ymFirstDay (monthsBefore k)) ∧
    monthsBefore k = (2024 - k / 12, 12 - k % 12) ∧
    1 ≤ (monthsBefore k).2 ∧ (monthsBefore k).2 ≤ 12 := by
  have hmb := monthsBefore_closed k hk
  refine ⟨?_, hmb, ?_, ?_⟩
  · unfold buildDateMap
    rw [if_pos ⟨by omega, hcol⟩]
    have h2 : 2 + k - 2 = k := by omega
    rw [h2, hmb, macroDateEntry_eq k hk]
  · rw [hmb]
    simp only
    omega
  · rw [hmb]
    simp only
    omega

theorem macro_date_axis_witness :
    (2 + 12 < 300 ∧ 12 < 24288) ∧
    (buildDateMap 300 (2 + 12) = some (ymFirstDay (monthsBefore 12)) ∧
     monthsBefore 12 = (2024 - 12 / 12, 12 - 12 % 12) ∧
     1 ≤ (monthsBefore 12).2 ∧ (monthsBefore 12).2 ≤ 12) :=
  ⟨⟨by decide, by decide⟩, macro_date_axis 300 12 (by decide) (by decide)⟩

/-! ## C4 — `clean_value` -/

theorem mk_toList (l : List Char) : (String.mk l).toList = l := rfl

/-- **C4.** `clean_value` returns `None` exactly for missing inputs and
for inputs whose stripped string form is one of the five sentinels; every
other input becomes the parsed number when the comma-stripped string is a
Python float literal, and the stripped string itself otherwise. -/
theorem clean_value_spec (x : CVIn) :
    (clean_value x = .null ↔
      (x = .na ∨ ∃ s, x = .val s ∧ stripStr s ∈ pySentinels)) ∧
    (∀ s, x = .val s → stripStr s ∉ pySentinels →
      (isPyFloat (removeCommas (stripStr s).toList) = true →
        clean_value x = .num (String.mk (removeCommas (stripStr s).toList))) ∧
      (isPyFloat (removeCommas (stripStr s).toList) = false →
        clean_value x = .strv (stripStr s))) := by
  cases x with
  | na =>
      constructor
      · constructor
        · intro _; exact Or.inl rfl
        · intro _; rfl
      · intro s hs
        cases hs
  | val s =>
      constructor
      · constructor
        · intro h
          by_cases hsent : stripStr s ∈ pySentinels
          · exact Or.inr ⟨s, rfl, hsent⟩
          · exfalso
            simp only [clean_value, hsent, if_false, mk_toList] at h
            by_cases hf : isPyFloat (removeCommas (stripStr s).toList) = true
            · rw [if_pos hf] at h
              cases h
            · rw [if_neg hf] at h
              cases h
        · intro h
          rcases h with h | ⟨t, ht, hsent⟩
          · cases h
          · cases ht
            simp only [clean_value, hsent, if_true]
      · intro t ht hsent
        cases ht
        constructor
        · intro hf
          simp only [clean_value, hsent, if_false, mk_toList, hf, if_true]
        · intro hf
          simp only [clean_value, hsent, if_false, mk_toList, hf,
            Bool.false_eq_true, if_false]

theorem clean_value_spec_witness :
    ((CVIn.val " 1,234.5 " = CVIn.val " 1,234.5 ") ∧
      stripStr " 1,234.5 " ∉ pySentinels ∧
      isPyFloat (removeCommas (stripStr " 1,234.5 ").toList) = true) ∧
    clean_value (.val " 1,234.5 ") = .num "1234.5" := by
  refine ⟨⟨rfl, by decide, by decide⟩, ?_⟩
  have h := ((clean_value_spec (.val " 1,234.5 ")).2 " 1,234.5 " rfl
    (by decide)).1 (by decide)
  exact h

/-! ## C8 — label fallbacks of the weekly-price column mapper -/

/-- **C8.** For a ticker block at columns `(col, col+1)`: when neither
field label contains `"Price"` the price column defaults to the block's
first column, when neither contains `"Return"` the return column defaults
to the block's second column, and the mapper always yields columns inside
the block (it never raises). -/
theorem weekly_mapper_defaults (fieldRow : List XCell) (col : Nat) :
    (strContains (weeklyFieldStr fieldRow col) "Price" = false →
     strContains (weeklyFieldStr fieldRow (col + 1)) "Price" = false →
     (weeklyBlockCols fieldRow col).1 = col) ∧
    (strContains (weeklyFieldStr fieldRow col) "Return" = false →
     strContains (weeklyFieldStr fieldRow (col + 1)) "Return" = false →
     (weeklyBlockCols fieldRow col).2 = col + 1) ∧
    ((weeklyBlockCols fieldRow col).1 = col ∨
     (weeklyBlockCols fieldRow col).1 = col + 1) ∧
    ((weeklyBlockCols fieldRow col).2 = col ∨
     (weeklyBlockCols fieldRow col).2 = col + 1) := by
  refine ⟨?_, ?_, ?_, ?_⟩
  · intro h1 h2
    simp [weeklyBlockCols, h1, h2]
  · intro h1 h2
    simp [weeklyBlockCols, h1, h2]
  · unfold weeklyBlockCols
    dsimp only
    split_ifs <;> simp
  · unfold weeklyBlockCols
    dsimp only
    split_ifs <;> simp

theorem weekly_mapper_defaults_witness :
    (strContains (weeklyFieldStr [.na, .s "Foo", .s "Bar"] 1) "Price" = false ∧
     strContains (weeklyFieldStr [.na, .s "Foo", .s "Bar"] 2) "Price" = false ∧
     strContains (weeklyFieldStr [.na, .s "Foo", .s "Bar"] 1) "Return" = false ∧
     strContains (weeklyFieldStr [.na, .s "Foo", .s "Bar"] 2) "Return" = false) ∧
    (weeklyBlockCols [.na, .s "Foo", .s "Bar"] 1).1 = 1 ∧
    (weeklyBlockCols [.na, .s "Foo", .s "Bar"] 1).2 = 2 := by
  refine ⟨⟨by decide, by decide, by decide, by decide⟩, ?_, ?_⟩
  · exact (weekly_mapper_defaults [.na, .s "Foo", .s "Bar"] 1).1
      (by decide) (by decide)
  · exact (weekly_mapper_defaults [.na, .s "Foo", .s "Bar"] 1).2.1
      (by decide) (by decide)

/-! ## C10 — the frame effect of `fix_date_column` -/

theorem annualGo_frame (fuel : Nat) :
    ∀ (ws : WS) (row r c : Nat), (c ≠ 1 ∨ r < row ∨ 26 < r) →
      annualGo fuel ws row r c = ws r c := by
  induction fuel with
  | zero => intro ws row r c _; rfl
  | succ fuel ih =>
      intro ws row r c h
      rw [annualGo]
      by_cases hlt : row < 28
      · simp only [hlt, if_true]
        by_cases hy : 2005 + (row - 7) > 2024
        · simp [hy]
        · simp only [hy, if_false]
          rw [ih _ (row + 1) r c (by omega)]
          have hne : ¬ (r = row ∧ c = 1) := by
            rcases h with h | h | h
            · exact fun hc => h hc.2
            · exact fun hc => by omega
            · exact fun hc => by omega
          simp [setCell, hne]
      · simp [hlt]

theorem annualGo_val (fuel : Nat) :
    ∀ (ws : WS) (row r : Nat), 28 - row ≤ fuel → row ≤ r → r ≤ 26 →
      annualGo fuel ws row r 1 = .d ⟨2005 + (r - 7), 12, 31⟩ := by
  induction fuel with
  | zero => intro ws row r hf h1 h2; omega
  | succ fuel ih =>
      intro ws row r hf h1 h2
      have hlt : row < 28 := by omega
      have hy : ¬ (2005 + (row - 7) > 2024) := by omega
      rw [annualGo]
      simp only [hlt, if_true, hy, if_false]
      by_cases heq : row = r
      · subst heq
        rw [annualGo_frame fuel _ (row + 1) row 1 (by omega)]
        simp [setCell]
      · exact ih _ (row + 1) r (by omega) (by omega) h2

theorem quarterlyGo_frame (fuel : Nat) :
    ∀ (ws : WS) (row r c : Nat), (c ≠ 1 ∨ r < row ∨ 86 < r) →
      quarterlyGo fuel ws row r c = ws r c := by
  induction fuel with
  | zero => intro ws row r c _; rfl
  | succ fuel ih =>
      intro ws row r c h
      rw [quarterlyGo]
      by_cases hlt : row < 88
      · simp only [hlt, if_true]
        by_cases hy : 2005 + (row - 7) / 4 > 2024
        · simp [hy]
        · simp only [hy, if_false]
          rw [ih _ (row + 1) r c (by omega)]
          have hne : ¬ (r = row ∧ c = 1) := by
            rcases h with h | h | h
            · exact fun hc => h hc.2
            · exact fun hc => by omega
            · exact fun hc => by omega
          simp [setCell, hne]
      · simp [hlt]

theorem quarterlyGo_val (fuel : Nat) :
    ∀ (ws : WS) (row r : Nat), 88 - row ≤ fuel → row ≤ r → r ≤ 86 →
      quarterlyGo fuel ws row r 1 =
        .d ⟨2005 + (r - 7) / 4, ((quarters.get? ((r - 7) % 4)).getD (0, 0)).1,
            ((quarters.get? ((r - 7) % 4)).getD (0, 0)).2⟩ := by
  induction fuel with
  | zero => intro ws row r hf h1 h2; omega
  | succ fuel ih =>
      intro ws row r hf h1 h2
      have hlt : row < 88 := by omega
      have hy : ¬ (2005 + (row - 7) / 4 > 2024) := by omega
      rw [quarterlyGo]
      simp only [hlt, if_true, hy, if_false]
      by_cases heq : row = r
      · subst heq
        rw [quarterlyGo_frame fuel _ (row + 1) row 1 (by omega)]
        simp [setCell]
      · exact ih _ (row + 1) r (by omega) (by omega) h2

/-- **C10.** `fix_date_column` only modifies column-A cells of rows 7–26
(ANNUAL) or 7–86 (QUARTERLY) of the named workbook, writing the year-end
dates 2005-12-31 … 2024-12-31 resp. the 80 quarter-end dates 2005-03-31 …
2024-12-31 in order; the row-6 header, every cell outside the written
range, and every other file keep their prior values. -/
theorem fix_date_column_effect (fs : FS) (fn : String) (ws : WS)
    (h : fs fn = some ws) :
    (∃ fs', fix_date_column fs fn "ANNUAL" = .ok fs' ∧
      (∀ n, n ≠ fn → fs' n = fs n) ∧
      ∃ ws', fs' fn = some ws' ∧
        (∀ k, k ≤ 19 → ws' (7 + k) 1 = .d ⟨2005 + k, 12, 31⟩) ∧
        (∀ r c, (c ≠ 1 ∨ r < 7 ∨ 26 < r) → ws' r c = ws r c)) ∧
    (∃ fs', fix_date_column fs fn "QUARTERLY" = .ok fs' ∧
      (∀ n, n ≠ fn → fs' n = fs n) ∧
      ∃ ws', fs' fn = some ws' ∧
        (∀ k, k ≤ 79 → ws' (7 + k) 1 =
          .d ⟨2005 + k / 4, ((quarters.get? (k % 4)).getD (0, 0)).1,
              ((quarters.get? (k % 4)).getD (0, 0)).2⟩) ∧
        (∀ r c, (c ≠ 1 ∨ r < 7 ∨ 86 < r) → ws' r c = ws r c)) := by
  constructor
  · refine ⟨fun n => if n = fn then some (annualLoop ws 7) else fs n,
      ?_, ?_, annualLoop ws 7, ?_, ?_, ?_⟩
    · unfold fix_date_column
      rw [h]
      rfl
    · intro n hn
      simp [hn]
    · simp
    · intro k hk
      unfold annualLoop
      have hv := annualGo_val (28 - 7) ws 7 (7 + k) (by omega) (by omega) (by omega)
      rw [hv]
      have h7 : 7 + k - 7 = k := by omega
      rw [h7]
    · intro r c hc
      exact annualGo_frame (28 - 7) ws 7 r c hc
  · refine ⟨fun n => if n = fn then some (quarterlyLoop ws 7) else fs n,
      ?_, ?_, quarterlyLoop ws 7, ?_, ?_, ?_⟩
    · unfold fix_date_column
      rw [h]
      rfl
    · intro n hn
      simp [hn]
    · simp
    · intro k hk
      unfold quarterlyLoop
      have hv := quarterlyGo_val (88 - 7) ws 7 (7 + k) (by omega) (by omega) (by omega)
      rw [hv]
      have h7 : 7 + k - 7 = k := by omega
      rw [h7]
    · intro r c hc
      exact quarterlyGo_frame (88 - 7) ws 7 r c hc

theorem fix_date_column_effect_witness :
    fsOne "financials_annual.xlsx" = some wsBlank ∧
    ((∃ fs', fix_date_column fsOne "financials_annual.xlsx" "ANNUAL" = .ok fs' ∧
      (∀ n, n ≠ "financials_annual.xlsx" → fs' n = fsOne n) ∧
      ∃ ws', fs' "financials_annual.xlsx" = some ws' ∧
        (∀ k, k ≤ 19 → ws' (7 + k) 1 = .d ⟨2005 + k, 12, 31⟩) ∧
        (∀ r c, (c ≠ 1 ∨ r < 7 ∨ 26 < r) → ws' r c = wsBlank r c)) ∧
    (∃ fs', fix_date_column fsOne "financials_annual.xlsx" "QUARTERLY" = .ok fs' ∧
      (∀ n, n ≠ "financials_annual.xlsx" → fs' n = fsOne n) ∧
      ∃ ws', fs' "financials_annual.xlsx" = some ws' ∧
        (∀ k, k ≤ 79 → ws' (7 + k) 1 =
          .d ⟨2005 + k / 4, ((quarters.get? (k % 4)).getD (0, 0)).1,
              ((quarters.get? (k % 4)).getD (0, 0)).2⟩) ∧
        (∀ r c, (c ≠ 1 ∨ r < 7 ∨ 86 < r) → ws' r c = wsBlank r c))) :=
  ⟨rfl, fix_date_column_effect fsOne "financials_annual.xlsx" wsBlank rfl⟩

/-! ## C6 — silently skipped rows -/

/-- **C6.** A membership row whose ticker resolves to no company, or
whose date fails to parse (or parses to a falsy value), inserts nothing,
leaves the table unchanged and lets the fold continue with the remaining
rows; likewise an interest-rate row with an unparsable date. -/
theorem silent_row_skips
    (companies : List CompanyRow) (t2id : List (String × Nat))
    (tb : List MembRow) (rows : List MembIn) (row : MembIn)
    (tb2 : List RateRow) (rrows : List (List XCell)) (dataRow : List XCell)
    (ncols : Nat)
    (hm : membResolve t2id companies (stripStr (pyStrCell row.ticker)) = none ∨
          parse_bloomberg_date (cellToBB row.as_of_date) = none ∨
          parse_bloomberg_date (cellToBB row.as_of_date) = some "")
    (hr : parse_bloomberg_date (cellToBB (cellAt dataRow 0)) = none ∨
          parse_bloomberg_date (cellToBB (cellAt dataRow 0)) = some "") :
    membStep companies t2id tb row = tb ∧
    import_index_membership companies t2id tb (row :: rows) =
      import_index_membership companies t2id tb rows ∧
    rateRowStep ncols tb2 dataRow = tb2 ∧
    (dataRow :: rrows).foldl (fun t r => rateRowStep ncols t r) tb2 =
      rrows.foldl (fun t r => rateRowStep ncols t r) tb2 := by
  have h1 : membStep companies t2id tb row = tb := by
    cases hres : membResolve t2id companies (stripStr (pyStrCell row.ticker)) with
    | none => simp [membStep, hres]
    | some cid =>
        rcases hm with h | h | h
        · rw [hres] at h
          cases h
        · simp [membStep, hres, h]
        · simp [membStep, hres, h]
  have h2 : rateRowStep ncols tb2 dataRow = tb2 := by
    rcases hr with h | h
    · simp [rateRowStep, h]
    · simp [rateRowStep, h]
  refine ⟨h1, ?_, h2, ?_⟩
  · simp only [import_index_membership, List.foldl_cons, h1]
  · simp only [List.foldl_cons, h2]

theorem silent_row_skips_witness :
    ((membResolve [] [] (stripStr (pyStrCell (XCell.s "ZZZ AB Equity"))) = none ∨
      parse_bloomberg_date (cellToBB (XCell.s "2020-12-31")) = none ∨
      parse_bloomberg_date (cellToBB (XCell.s "2020-12-31")) = some "") ∧
     (parse_bloomberg_date (cellToBB (cellAt [XCell.s "notadate"] 0)) = none ∨
      parse_bloomberg_date (cellToBB (cellAt [XCell.s "notadate"] 0)) = some "")) ∧
    membStep [] [] [] ⟨.s "ZZZ AB Equity", .s "SPX", .s "2020-12-31", .na, .na, .na⟩ = [] ∧
    import_index_membership [] [] []
      [⟨.s "ZZZ AB Equity", .s "SPX", .s "2020-12-31", .na, .na, .na⟩] =
      import_index_membership [] [] [] [] ∧
    rateRowStep 11 [] [XCell.s "notadate"] = [] ∧
    ([[XCell.s "notadate"]]).foldl (fun t r => rateRowStep 11 t r) [] =
      ([] : List (List XCell)).foldl (fun t r => rateRowStep 11 t r) [] :=
  ⟨⟨Or.inl (by decide), Or.inl (by decide)⟩,
   silent_row_skips [] [] [] [] ⟨.s "ZZZ AB Equity", .s "SPX", .s "2020-12-31", .na, .na, .na⟩
     [] [] [XCell.s "notadate"] 11 (Or.inl (by decide)) (Or.inl (by decide))⟩

/-! ## C7 — the snapshot consolidator -/

theorem dedupByGo_mem {α κ : Type} [DecidableEq κ] (key : α → κ) (fuel : Nat) :
    ∀ (l : List α) (x : α), x ∈ dedupByGo key fuel l → x ∈ l := by
  induction fuel with
  | zero =>
      intro l x hx
      cases l <;> simp [dedupByGo] at hx
  | succ fuel ih =>
      intro l x hx
      cases l with
      | nil => simp [dedupByGo] at hx
      | cons a as =>
          simp only [dedupByGo, List.mem_cons] at hx
          rcases hx with h | h
          · exact h ▸ List.mem_cons_self _ _
          · exact List.mem_cons_of_mem _
              (List.mem_of_mem_filter (ih _ x h))

theorem dedupByGo_pairwise {α κ : Type} [DecidableEq κ] (key : α → κ)
    (fuel : Nat) :
    ∀ (l : List α), l.length ≤ fuel →
      (dedupByGo key fuel l).Pairwise fun a b => key a ≠ key b := by
  induction fuel with
  | zero =>
      intro l hl
      cases l with
      | nil => simp [dedupByGo]
      | cons a as => simp at hl
  | succ fuel ih =>
      intro l hl
      cases l with
      | nil => simp [dedupByGo]
      | cons a as =>
          simp only [dedupByGo]
          refine List.Pairwise.cons ?_ (ih _ ?_)
          · intro b hb
            have hbf := dedupByGo_mem key fuel _ b hb
            have hcond := List.of_mem_filter hbf
            simp only [decide_eq_true_eq] at hcond
            exact fun hc => hcond hc.symm
          · have := List.length_filter_le
              (fun y => decide (key y ≠ key a)) as
            simp only [List.length_cons] at hl
            omega

theorem dedupBy_mem {α κ : Type} [DecidableEq κ] (key : α → κ) (l : List α)
    (x : α) (hx : x ∈ dedupBy key l) : x ∈ l :=
  dedupByGo_mem key l.length l x hx

theorem dedupBy_pairwise {α κ : Type} [DecidableEq κ] (key : α → κ)
    (l : List α) : (dedupBy key l).Pairwise fun a b => key a ≠ key b :=
  dedupByGo_pairwise key l.length l (Nat.le_refl _)

theorem combineFiles_mem (files : List MembFile) (out : List SnapRow)
    (h : combineFiles files = .ok out) :
    ∀ r ∈ out, ∃ f ∈ files, ∃ rows, combineFile f = .ok rows ∧ r ∈ rows := by
  induction files generalizing out with
  | nil =>
      injection h with h
      subst h
      intro r hr
      cases hr
  | cons f fs ih =>
      intro r hr
      unfold combineFiles at h
      cases hcf : combineFile f with
      | error e => rw [hcf] at h; cases h
      | ok rows =>
          rw [hcf] at h
          cases hcfs : combineFiles fs with
          | error e => rw [hcfs] at h; cases h
          | ok rest =>
              rw [hcfs] at h
              injection h with h
              subst h
              rcases List.mem_append.mp hr with h1 | h1
              · exact ⟨f, List.mem_cons_self _ _, rows, hcf, h1⟩
              · rcases ih rest hcfs r h1 with ⟨g, hg, rows', hr1, hr2⟩
                exact ⟨g, List.mem_cons_of_mem _ hg, rows', hr1, hr2⟩

theorem combineFile_fields (f : MembFile) (rows : List SnapRow)
    (h : combineFile f = .ok rows) :
    ∀ r ∈ rows, ∃ y, findYear f.name.toList = some y ∧
      r.index_id = String.mk (f.name.toList.take 3) ∧
      r.as_of_date = toString y ++ "-12-31" := by
  unfold combineFile at h
  dsimp only at h
  cases hfy : findYear f.name.toList with
  | none => rw [hfy] at h; cases h
  | some y =>
      rw [hfy] at h
      cases hti : (f.df.cols.map stripStr).findIdx? (fun c => c == "Ticker") with
      | none => rw [hti] at h; cases h
      | some ti =>
          rw [hti] at h
          injection h with h
          subst h
          intro r hr
          simp only [List.mem_map] at hr
          rcases hr with ⟨row0, _, hrow⟩
          refine ⟨y, rfl, ?_, ?_⟩ <;> rw [← hrow]

/-- **C7.** Every row of a successful consolidation carries the
`index_id` given by the first three characters of its source filename and
the `as_of_date` December 31 of the first `20XX` year in that filename,
and the final table has at most one row per
`(index_id, as_of_date, Ticker)` triple. -/
theorem snapshot_consolidator (files : List MembFile) (out : List SnapRow)
    (h : combine_memb files = .ok out) :
    (∀ r ∈ out, ∃ f ∈ files, ∃ y,
        findYear f.name.toList = some y ∧
        r.index_id = String.mk (f.name.toList.take 3) ∧
        r.as_of_date = toString y ++ "-12-31") ∧
    out.Pairwise (fun a b => snapKey a ≠ snapKey b) := by
  unfold combine_memb at h
  cases hcf : combineFiles files with
  | error e => rw [hcf] at h; cases h
  | ok all =>
      rw [hcf] at h
      injection h with h
      subst h
      constructor
      · intro r hr
        have hmem : r ∈ all := dedupBy_mem snapKey all r hr
        rcases combineFiles_mem files all hcf r hmem with ⟨f, hf, rows, hrows, hrin⟩
        rcases combineFile_fields f rows hrows r hrin with ⟨y, h1, h2, h3⟩
        exact ⟨f, hf, y, h1, h2, h3⟩
      · exact dedupBy_pairwise snapKey all

theorem snapshot_consolidator_witness :
    combine_memb cxFiles = .ok cxOut ∧
    ((∀ r ∈ cxOut, ∃ f ∈ cxFiles, ∃ y,
        findYear f.name.toList = some y ∧
        r.index_id = String.mk (f.name.toList.take 3) ∧
        r.as_of_date = toString y ++ "-12-31") ∧
     cxOut.Pairwise (fun a b => snapKey a ≠ snapKey b)) :=
  ⟨rfl, snapshot_consolidator cxFiles cxOut rfl⟩

/-! ## C9 — ticker dictionary vs. assigned company ids -/

theorem dictFold_append {β : Type} (ps : List (String × β)) :
    ∀ (m : List (String × β)),
      (∀ p ∈ ps, ∀ q ∈ m, q.1 ≠ p.1) →
      ps.Pairwise (fun a b => a.1 ≠ b.1) →
      ps.foldl (fun m p => dictInsert m p.1 p.2) m = m ++ ps := by
  induction ps with
  | nil => intro m _ _; simp
  | cons p ps ih =>
      intro m hfresh hdist
      have hnone : ¬ (m.any fun q => q.1 == p.1) = true := by
        intro hc
        rw [List.any_eq_true] at hc
        rcases hc with ⟨q, hq, hq1⟩
        exact hfresh p (List.mem_cons_self _ _) q hq (by simpa using hq1)
      have hstep : dictInsert m p.1 p.2 = m ++ [p] := by
        unfold dictInsert
        rw [if_neg hnone]
      have hfresh2 : ∀ p2 ∈ ps, ∀ q ∈ m ++ [p], q.1 ≠ p2.1 := by
        intro p2 hp2 q hq
        rcases List.mem_append.mp hq with h | h
        · exact hfresh p2 (List.mem_cons_of_mem _ hp2) q h
        · have hq2 : q = p := by simpa using h
          subst hq2
          exact List.rel_of_pairwise_cons hdist hp2
      simp only [List.foldl_cons, hstep]
      rw [ih (m ++ [p]) hfresh2
        (List.Pairwise.sublist (List.sublist_cons_self _ _) hdist)]
      simp

theorem insertCompany_fold (recs : List CompanyRec) :
    ∀ (tb : List CompanyRow),
      (recs.Pairwise fun a b => a.ticker ≠ b.ticker) →
      (∀ r ∈ recs, ∀ c ∈ tb, c.row.ticker ≠ r.ticker) →
      recs.foldl insertCompany tb =
        tb ++ ((List.enumFrom tb.length recs).map fun p => ⟨p.1 + 1, p.2⟩) := by
  induction recs with
  | nil => intro tb _ _; simp
  | cons r rs ih =>
      intro tb hdist hfresh
      have hnone : ¬ (tb.any fun c => c.row.ticker == r.ticker) = true := by
        intro hc
        rw [List.any_eq_true] at hc
        rcases hc with ⟨c, hc1, hc2⟩
        exact hfresh r (List.mem_cons_self _ _) c hc1 (by simpa using hc2)
      have hstep : insertCompany tb r = tb ++ [⟨tb.length + 1, r⟩] := by
        unfold insertCompany
        rw [if_neg hnone]
      have hfresh2 : ∀ r2 ∈ rs, ∀ c ∈ tb ++ [(⟨tb.length + 1, r⟩ : CompanyRow)],
          c.row.ticker ≠ r2.ticker := by
        intro r2 hr2 c hc
        rcases List.mem_append.mp hc with h | h
        · exact hfresh r2 (List.mem_cons_of_mem _ hr2) c h
        · have hc2 : c = ⟨tb.length + 1, r⟩ := by simpa using h
          subst hc2
          exact List.rel_of_pairwise_cons hdist hr2
      simp only [List.foldl_cons, hstep]
      have hIH := ih (tb ++ [(⟨tb.length + 1, r⟩ : CompanyRow)])
        (List.Pairwise.sublist (List.sublist_cons_self _ _) hdist) hfresh2
      rw [hIH, List.enumFrom_cons]
      simp only [List.length_append, List.length_cons, List.length_nil,
        List.map_cons, List.append_assoc, List.singleton_append]

theorem lookup_parallel (recs : List CompanyRec) :
    ∀ (n : Nat) (tk : String) (id : Nat),
      lookupD ((List.enumFrom n recs).map fun p => (p.2.ticker, p.1 + 1)) tk =
        some id →
      (((List.enumFrom n recs).map fun p =>
          (⟨p.1 + 1, p.2⟩ : CompanyRow)).find?
        fun c => c.row.ticker == tk).map (·.company_id) = some id := by
  induction recs with
  | nil => intro n tk id h; simp [lookupD] at h
  | cons r rs ih =>
      intro n tk id h
      rw [List.enumFrom_cons, List.map_cons] at h ⊢
      by_cases hk : (r.ticker == tk) = true
      · rw [List.find?_cons_of_pos _ (by simpa using hk)]
        unfold lookupD at h
        rw [List.find?_cons_of_pos _ (by simpa using hk)] at h
        simp only [Option.map_some] at h ⊢
        simpa using h
      · rw [List.find?_cons_of_neg _ (by simpa using hk)]
        unfold lookupD at h
        rw [List.find?_cons_of_neg _ (by simpa using hk)] at h
        exact ih (n + 1) tk id h

theorem enumFrom_pairwise_snd {R : CompanyRec → CompanyRec → Prop} :
    ∀ (n : Nat) (l : List CompanyRec), l.Pairwise R →
      (List.enumFrom n l).Pairwise fun a b => R a.2 b.2 := by
  intro n l
  induction l generalizing n with
  | nil => intro _; simp
  | cons r rs ih =>
      intro h
      rw [List.enumFrom_cons]
      refine List.Pairwise.cons ?_
        (ih (n + 1) (List.Pairwise.sublist (List.sublist_cons_self _ _) h))
      intro b hb
      have hbsnd : b.2 ∈ rs := by
        have hsnd := List.enumFrom_map_snd (n + 1) rs
        rw [← hsnd]
        exact List.mem_map_of_mem _ hb
      exact List.rel_of_pairwise_cons h hbsnd

/-- **C9.** Starting from an empty companies table, when
`company_master.csv` has no two kept rows with the same ticker, the
`{ticker: i+1}` dictionary `import_companies` returns agrees with the
database: every ticker it maps to an id is stored in the companies table
under exactly that `company_id`. -/
theorem import_companies_ids (rows : List CsvRow)
    (hdist : (companiesRecords rows).Pairwise fun a b => a.ticker ≠ b.ticker) :
    ∀ tk id, lookupD (import_companies [] rows).2 tk = some id →
      dbCompanyLookup (import_companies [] rows).1 tk = some id := by
  intro tk id h
  unfold import_companies at h ⊢
  dsimp only at h ⊢
  have hpairEnum := enumFrom_pairwise_snd 0 (companiesRecords rows) hdist
  have hpair : (((companiesRecords rows).enum.map
      fun p => (p.2.ticker, p.1 + 1))).Pairwise fun a b => a.1 ≠ b.1 := by
    rw [List.pairwise_map]
    simpa using hpairEnum
  rw [dictFold_append _ [] (by intro p _ q hq; cases hq) hpair] at h
  have hdb : (companiesRecords rows).foldl insertCompany [] =
      (List.enumFrom 0 (companiesRecords rows)).map fun p => ⟨p.1 + 1, p.2⟩ := by
    have hins := insertCompany_fold (companiesRecords rows) [] hdist
      (by intro r _ c hc; cases hc)
    simpa using hins
  rw [hdb]
  rw [List.nil_append] at h
  exact lookup_parallel (companiesRecords rows) 0 tk id h

theorem import_companies_ids_witness :
    ((companiesRecords c9Rows).Pairwise fun a b => a.ticker ≠ b.ticker) ∧
    lookupD (import_companies [] c9Rows).2 "MSFT UW Equity" = some 2 ∧
    dbCompanyLookup (import_companies [] c9Rows).1 "MSFT UW Equity" = some 2 :=
  ⟨by decide, by decide,
   import_companies_ids c9Rows (by decide) "MSFT UW Equity" 2 (by decide)⟩

/-! ## C3 — loader idempotence -/

theorem lookupD_cons {β : Type} (q : String × β) (ps : List (String × β))
    (k : String) :
    lookupD (q :: ps) k = if q.1 == k then some q.2 else lookupD ps k := by
  by_cases h : (q.1 == k) = true
  · simp [lookupD, List.find?_cons, h]
  · simp [lookupD, List.find?_cons, h]

theorem lookupD_overwrite {β : Type} (k k2 : String) (v : β) :
    ∀ (m : List (String × β)),
      lookupD (m.map fun p => if p.1 == k then (k, v) else p) k2 =
        if k2 = k then (if m.any fun p => p.1 == k then some v else none)
        else lookupD m k2 := by
  intro m
  induction m with
  | nil => by_cases h : k2 = k <;> simp [lookupD, h]
  | cons p ps ih =>
      rw [List.map_cons]
      by_cases hpk : (p.1 == k) = true
      · rw [if_pos hpk]
        by_cases hk2 : k2 = k
        · rw [hk2]
          rw [lookupD_cons, if_pos (by simp), if_pos rfl, List.any_cons,
            hpk, Bool.true_or]
          rfl
        · have hkk2 : ¬ (k == k2) = true := fun hc => hk2 (eq_of_beq hc).symm
          have hp2 : ¬ (p.1 == k2) = true := by
            intro hc
            apply hk2
            rw [← eq_of_beq hc]
            exact eq_of_beq hpk
          rw [lookupD_cons, if_neg (by simpa using hkk2), ih, if_neg hk2,
            if_neg hk2, lookupD_cons, if_neg hp2]
      · rw [if_neg hpk]
        by_cases hk2 : k2 = k
        · rw [hk2] at ih ⊢
          rw [Bool.not_eq_true] at hpk
          rw [lookupD_cons, if_neg (by simp [hpk]), ih, if_pos rfl,
            List.any_cons, hpk, Bool.false_or, if_pos rfl]
        · rw [lookupD_cons, ih, if_neg hk2, if_neg hk2, lookupD_cons]

theorem lookupD_dictInsert {β : Type} (m : List (String × β)) (k k2 : String)
    (v : β) :
    lookupD (dictInsert m k v) k2 = if k2 = k then some v else lookupD m k2 := by
  unfold dictInsert
  by_cases hany : (m.any fun p => p.1 == k) = true
  · rw [if_pos hany, lookupD_overwrite]
    by_cases hk2 : k2 = k
    · rw [if_pos hk2, if_pos hany, if_pos hk2]
    · rw [if_neg hk2, if_neg hk2]
  · rw [if_neg hany]
    unfold lookupD
    rw [List.find?_append]
    by_cases hk2 : k2 = k
    · subst hk2
      have hnone : m.find? (fun p => p.1 == k2) = none := by
        rw [List.find?_eq_none]
        intro x hx hc
        exact hany (List.any_eq_true.mpr ⟨x, hx, hc⟩)
      rw [hnone]
      simp
    · have hone : ([(k, v)].find? fun p => p.1 == k2) = none := by
        rw [List.find?_eq_none]
        intro x hx hc
        have hxkv : x = (k, v) := by simpa using hx
        subst hxkv
        exact hk2 (eq_of_beq hc).symm
      rw [hone]
      simp [lookupD, hk2]

/-- Caching a resolved id back into `ticker_to_id` never changes what any
later resolution yields, provided database ids are never 0. -/
theorem cache_stable (companies : List CompanyRow)
    (hnz : ∀ tk cid, dbCompanyLookup companies tk = some cid → cid ≠ 0)
    (m : List (String × Nat)) (tk tk2 : String) :
    resolveId companies (resolveCached companies m tk).2 tk2 =
      resolveId companies m tk2 := by
  unfold resolveCached
  cases htr : pyTruthyNat (lookupD m tk) with
  | true => simp [htr]
  | false =>
      simp only [htr, Bool.false_eq_true, if_false]
      cases hdb : dbCompanyLookup companies tk with
      | none => rfl
      | some cid =>
          show resolveId companies (dictInsert m tk cid) tk2 =
            resolveId companies m tk2
          by_cases hk : tk2 = tk
          · rw [hk]
            unfold resolveId resolveCached
            rw [lookupD_dictInsert, if_pos rfl]
            have hcid : cid ≠ 0 := hnz tk cid hdb
            have htruthy : pyTruthyNat (some cid) = true := by
              simp [pyTruthyNat, hcid]
            rw [if_pos htruthy]
            simp [htr, hdb]
          · unfold resolveId resolveCached
            rw [lookupD_dictInsert, if_neg hk]
            cases h2 : pyTruthyNat (lookupD m tk2) with
            | true => simp [h2]
            | false =>
                simp only [h2, Bool.false_eq_true, if_false]
                cases dbCompanyLookup companies tk2 <;> rfl

theorem membStep_eq (companies : List CompanyRow) (t2id : List (String × Nat))
    (tb : List MembRow) (row : MembIn) :
    membStep companies t2id tb row =
      match membInsertRow companies t2id row with
      | none => tb
      | some r => insOrIgnore membKey tb r := by
  unfold membStep membInsertRow
  dsimp only
  cases hres : membResolve t2id companies (stripStr (pyStrCell row.ticker)) with
  | none => rfl
  | some cid =>
      cases hpd : parse_bloomberg_date (cellToBB row.as_of_date) with
      | none => rfl
      | some ds =>
          by_cases hds : ds = ""
          · simp [hds]
          · simp [hds]

/-- `import_index_membership` is the `IGNORE` fold of its mapped rows. -/
theorem memb_factor (companies : List CompanyRow) (t2id : List (String × Nat)) :
    ∀ (rows : List MembIn) (tb : List MembRow),
      import_index_membership companies t2id tb rows =
        (rows.filterMap (membInsertRow companies t2id)).foldl
          (insOrIgnore membKey) tb := by
  intro rows
  induction rows with
  | nil => intro tb; rfl
  | cons row rest ih =>
      intro tb
      unfold import_index_membership at ih ⊢
      rw [List.foldl_cons, membStep_eq]
      cases h : membInsertRow companies t2id row with
      | none =>
          simp only [List.filterMap_cons, h]
          exact ih tb
      | some r =>
          simp only [List.filterMap_cons, h, List.foldl_cons]
          exact ih (insOrIgnore membKey tb r)

theorem finTickInsert_congr (res1 res2 : String → Option Nat)
    (h : ∀ tk, res1 tk = res2 tk) (ptype : String) (dataRow : List XCell) :
    finTickInsert res1 ptype dataRow = finTickInsert res2 ptype dataRow := by
  funext pdate tf
  unfold finTickInsert
  rw [h tf.1]

theorem finRowInserts_congr (res1 res2 : String → Option Nat)
    (h : ∀ tk, res1 tk = res2 tk) (ptype : String)
    (tfields : List (String × List (String × Nat))) :
    finRowInserts res1 ptype tfields = finRowInserts res2 ptype tfields := by
  funext dataRow
  unfold finRowInserts
  rw [finTickInsert_congr res1 res2 h ptype dataRow]

theorem finInserts_congr (res1 res2 : String → Option Nat)
    (h : ∀ tk, res1 tk = res2 tk) (ptype : String)
    (tfields : List (String × List (String × Nat)))
    (rows : List (List XCell)) :
    finInserts res1 ptype tfields rows = finInserts res2 ptype tfields rows := by
  unfold finInserts
  rw [finRowInserts_congr res1 res2 h ptype tfields]

/-- The inner ticker loop of `import_financials`: the table component is
the `REPLACE` fold of the mapped rows, and the cache mutations never
change what resolution yields. -/
theorem finTick_factor (companies : List CompanyRow)
    (hnz : ∀ tk cid, dbCompanyLookup companies tk = some cid → cid ≠ 0)
    (ptype : String) (dataRow : List XCell) (pdate : String) :
    ∀ (tfields : List (String × List (String × Nat)))
      (m : List (String × Nat)) (T : List FinRow),
      (tfields.foldl (finTickStep companies ptype dataRow pdate) (m, T)).2 =
        (tfields.filterMap
            (finTickInsert (resolveId companies m) ptype dataRow pdate)).foldl
          (insOrReplace finKey) T ∧
      ∀ tk, resolveId companies
          (tfields.foldl (finTickStep companies ptype dataRow pdate) (m, T)).1 tk =
        resolveId companies m tk := by
  intro tfields
  induction tfields with
  | nil => intro m T; exact ⟨rfl, fun tk => rfl⟩
  | cons tf rest ih =>
      intro m T
      rcases hp : resolveCached companies m tf.1 with ⟨o, m1⟩
      have hm1 : ∀ tk, resolveId companies m1 tk = resolveId companies m tk := by
        intro tk
        have hcs := cache_stable companies hnz m tf.1 tk
        rw [hp] at hcs
        exact hcs
      have ho : resolveId companies m tf.1 = o := by
        unfold resolveId
        rw [hp]
      have hfun : finTickInsert (resolveId companies m1) ptype dataRow =
          finTickInsert (resolveId companies m) ptype dataRow :=
        finTickInsert_congr _ _ hm1 ptype dataRow
      cases o with
      | none =>
          have hstep : finTickStep companies ptype dataRow pdate (m, T) tf =
              (m1, T) := by
            unfold finTickStep
            dsimp only
            rw [hp]
          have hins : finTickInsert (resolveId companies m) ptype dataRow pdate tf =
              none := by
            unfold finTickInsert
            rw [ho]
          rw [List.foldl_cons, hstep, List.filterMap_cons, hins]
          obtain ⟨ih1, ih2⟩ := ih m1 T
          refine ⟨?_, ?_⟩
          · rw [ih1, hfun]
          · intro tk
            rw [ih2 tk, hm1 tk]
      | some cid =>
          by_cases hall :
            ((finVals dataRow tf.2).all fun p => decide (p.2 = CleanVal.null)) = true
          · have hstep : finTickStep companies ptype dataRow pdate (m, T) tf =
                (m1, T) := by
              unfold finTickStep
              dsimp only
              rw [hp]
              dsimp only
              rw [if_pos hall]
            have hins : finTickInsert (resolveId companies m) ptype dataRow pdate tf =
                none := by
              unfold finTickInsert
              rw [ho]
              dsimp only
              rw [if_pos hall]
            rw [List.foldl_cons, hstep, List.filterMap_cons, hins]
            obtain ⟨ih1, ih2⟩ := ih m1 T
            refine ⟨?_, ?_⟩
            · rw [ih1, hfun]
            · intro tk
              rw [ih2 tk, hm1 tk]
          · have hstep : finTickStep companies ptype dataRow pdate (m, T) tf =
                (m1, insOrReplace finKey T
                  (mkFinRow cid pdate ptype (finVals dataRow tf.2))) := by
              unfold finTickStep
              dsimp only
              rw [hp]
              dsimp only
              rw [if_neg hall]
            have hins : finTickInsert (resolveId companies m) ptype dataRow pdate tf =
                some (mkFinRow cid pdate ptype (finVals dataRow tf.2)) := by
              unfold finTickInsert
              rw [ho]
              dsimp only
              rw [if_neg hall]
            rw [List.foldl_cons, hstep, List.filterMap_cons, hins, List.foldl_cons]
            obtain ⟨ih1, ih2⟩ := ih m1
              (insOrReplace finKey T (mkFinRow cid pdate ptype (finVals dataRow tf.2)))
            refine ⟨?_, ?_⟩
            · rw [ih1, hfun]
            · intro tk
              rw [ih2 tk, hm1 tk]

/-- The data-row loop of `import_financials`, factored through
`finInserts`. -/
theorem finRow_factor (companies : List CompanyRow)
    (hnz : ∀ tk cid, dbCompanyLookup companies tk = some cid → cid ≠ 0)
    (ptype : String) (tfields : List (String × List (String × Nat))) :
    ∀ (rows : List (List XCell)) (m : List (String × Nat)) (T : List FinRow),
      (rows.foldl (finRowStep companies ptype tfields) (m, T)).2 =
        (finInserts (resolveId companies m) ptype tfields rows).foldl
          (insOrReplace finKey) T ∧
      ∀ tk, resolveId companies
          (rows.foldl (finRowStep companies ptype tfields) (m, T)).1 tk =
        resolveId companies m tk := by
  intro rows
  induction rows with
  | nil => intro m T; exact ⟨rfl, fun tk => rfl⟩
  | cons dataRow rest ih =>
      intro m T
      rw [List.foldl_cons]
      cases hpd : parse_bloomberg_date (cellToBB (cellAt dataRow 0)) with
      | none =>
          have hstep : finRowStep companies ptype tfields (m, T) dataRow = (m, T) := by
            unfold finRowStep
            rw [hpd]
          have hrow : finRowInserts (resolveId companies m) ptype tfields dataRow =
              [] := by
            unfold finRowInserts
            rw [hpd]
          rw [hstep]
          obtain ⟨ih1, ih2⟩ := ih m T
          refine ⟨?_, ih2⟩
          rw [ih1]
          unfold finInserts
          rw [List.map_cons, List.flatten_cons, hrow, List.nil_append]
      | some ds =>
          by_cases hds : ds = ""
          · have hstep : finRowStep companies ptype tfields (m, T) dataRow = (m, T) := by
              unfold finRowStep
              rw [hpd]
              dsimp only
              rw [if_pos hds]
            have hrow : finRowInserts (resolveId companies m) ptype tfields dataRow =
                [] := by
              unfold finRowInserts
              rw [hpd]
              dsimp only
              rw [if_pos hds]
            rw [hstep]
            obtain ⟨ih1, ih2⟩ := ih m T
            refine ⟨?_, ih2⟩
            rw [ih1]
            unfold finInserts
            rw [List.map_cons, List.flatten_cons, hrow, List.nil_append]
          · have hstep : finRowStep companies ptype tfields (m, T) dataRow =
                tfields.foldl (finTickStep companies ptype dataRow ds) (m, T) := by
              unfold finRowStep
              rw [hpd]
              dsimp only
              rw [if_neg hds]
            have hrow : finRowInserts (resolveId companies m) ptype tfields dataRow =
                tfields.filterMap
                  (finTickInsert (resolveId companies m) ptype dataRow ds) := by
              unfold finRowInserts
              rw [hpd]
              dsimp only
              rw [if_neg hds]
            rw [hstep]
            obtain ⟨t1, t2⟩ := finTick_factor companies hnz ptype dataRow ds tfields m T
            rcases hq : tfields.foldl (finTickStep companies ptype dataRow ds) (m, T)
              with ⟨m2, T2⟩
            rw [hq] at t1 t2
            dsimp only at t1 t2
            obtain ⟨ih1, ih2⟩ := ih m2 T2
            refine ⟨?_, ?_⟩
            · rw [ih1, finInserts_congr _ _ t2 ptype tfields rest, t1]
              unfold finInserts
              rw [List.map_cons, List.flatten_cons, List.foldl_append, hrow]
            · intro tk
              rw [ih2 tk, t2 tk]

theorem import_financials_factor (companies : List CompanyRow) (g : Grid)
    (ptype : String) (m : List (String × Nat)) (T : List FinRow)
    (hnz : ∀ tk cid, dbCompanyLookup companies tk = some cid → cid ≠ 0) :
    (import_financials companies g ptype m T).2 =
      (finInserts (resolveId companies m) ptype
          (buildTickerFields (rowAt g 3) (rowAt g 5)) (g.drop 6)).foldl
        (insOrReplace finKey) T ∧
    ∀ tk, resolveId companies (import_financials companies g ptype m T).1 tk =
      resolveId companies m tk := by
  unfold import_financials
  exact finRow_factor companies hnz ptype _ (g.drop 6) m T

/-- **C3.** The loaders are idempotent and preserve business-key
uniqueness: replaying `import_index_membership` on the same input leaves
the membership table unchanged (ignore-duplicate semantics on
`(index_id, company_id, as_of_date)`), replaying `import_financials`
leaves the financials table unchanged (replace semantics on
`(company_id, period_end_date, period_type)`), and after either load the
table holds at most one row per business key. -/
theorem loaders_idempotent (companies : List CompanyRow)
    (t2id : List (String × Nat)) (tb : List MembRow) (rows : List MembIn)
    (g : Grid) (ptype : String) (m : List (String × Nat)) (T : List FinRow)
    (hnz : ∀ tk cid, dbCompanyLookup companies tk = some cid → cid ≠ 0)
    (hu1 : uniqKeys membKey tb) (hu2 : uniqKeys finKey T) :
    import_index_membership companies t2id
        (import_index_membership companies t2id tb rows) rows =
      import_index_membership companies t2id tb rows ∧
    uniqKeys membKey (import_index_membership companies t2id tb rows) ∧
    (import_financials companies g ptype
        (import_financials companies g ptype m T).1
        (import_financials companies g ptype m T).2).2 =
      (import_financials companies g ptype m T).2 ∧
    uniqKeys finKey (import_financials companies g ptype m T).2 := by
  refine ⟨?_, ?_, ?_, ?_⟩
  · rw [memb_factor, memb_factor]
    exact foldl_ignore_idem membKey _ tb
  · rw [memb_factor]
    exact uniqKeys_foldl_ignore membKey _ tb hu1
  · obtain ⟨f1, f2⟩ := import_financials_factor companies g ptype m T hnz
    obtain ⟨f1', _⟩ := import_financials_factor companies g ptype
      (import_financials companies g ptype m T).1
      (import_financials companies g ptype m T).2 hnz
    rw [f1', finInserts_congr _ _ f2 ptype _ (g.drop 6), f1]
    exact foldl_replace_idem finKey _ T
  · obtain ⟨f1, _⟩ := import_financials_factor companies g ptype m T hnz
    rw [f1]
    exact uniqKeys_foldl_replace finKey _ T hu2

theorem loaders_idempotent_witness :
    ((∀ tk cid, dbCompanyLookup [] tk = some cid → cid ≠ 0) ∧
     uniqKeys membKey ([] : List MembRow) ∧
     uniqKeys finKey ([] : List FinRow) ∧
     (import_financials [] c3Grid "ANNUAL" c3t2id []).2.length = 1 ∧
     (import_index_membership [] c3t2id [] c3MembRows).length = 1) ∧
    (import_index_membership [] c3t2id
        (import_index_membership [] c3t2id [] c3MembRows) c3MembRows =
      import_index_membership [] c3t2id [] c3MembRows ∧
     uniqKeys membKey (import_index_membership [] c3t2id [] c3MembRows) ∧
     (import_financials [] c3Grid "ANNUAL"
        (import_financials [] c3Grid "ANNUAL" c3t2id []).1
        (import_financials [] c3Grid "ANNUAL" c3t2id []).2).2 =
      (import_financials [] c3Grid "ANNUAL" c3t2id []).2 ∧
     uniqKeys finKey (import_financials [] c3Grid "ANNUAL" c3t2id []).2) :=
  ⟨⟨fun tk cid h => by simp [dbCompanyLookup, lookupD] at h,
    List.Pairwise.nil, List.Pairwise.nil, rfl, rfl⟩,
   loaders_idempotent [] c3t2id [] c3MembRows c3Grid "ANNUAL" c3t2id []
     (fun tk cid h => by simp [dbCompanyLookup, lookupD] at h)
     List.Pairwise.nil List.Pairwise.nil⟩

/-! ## C2 — round-tripping the six date formats

The corrected statement: the four formats `%Y-%m-%d`, `%m/%d/%Y`,
`%Y/%m/%d`, `%d-%m-%Y` always round-trip; `%d/%m/%Y` and `%m-%d-%Y` are
shadowed by the ambiguous format tried before them whenever the day is at
most 12 and differs from the month, in which case day and month come back
swapped. -/

theorem d1_dch (n : Nat) (h : n ≤ 9) : d1 (dch n) = some n := by
  interval_cases n <;> decide

theorem dch_ne_dash (n : Nat) (h : n ≤ 9) : ¬ (dch n = '-') := by
  interval_cases n <;> decide

theorem dch_ne_slash (n : Nat) (h : n ≤ 9) : ¬ (dch n = '/') := by
  interval_cases n <;> decide

theorem dch_not_ws (n : Nat) (h : n ≤ 9) : (dch n).isWhitespace = false := by
  interval_cases n <;> decide

theorem some_orElse2 {α : Type} (a : α) (f : Unit → Option α) :
    (some a).orElse f = some a := rfl

theorem none_orElse2 {α : Type} (f : Unit → Option α) :
    Option.orElse none f = f () := rfl

theorem dropWhile_eq_self_of_all {α : Type} (p : α → Bool) :
    ∀ (l : List α), (∀ c ∈ l, p c = false) → l.dropWhile p = l := by
  intro l hl
  cases l with
  | nil => rfl
  | cons a as =>
      rw [List.dropWhile_cons, hl a (List.mem_cons_self _ _)]
      simp

/-- Stripping does nothing to a string with no whitespace anywhere. -/
theorem stripChars_id (cs : List Char)
    (h : ∀ c ∈ cs, c.isWhitespace = false) : stripChars cs = cs := by
  unfold stripChars dropWS
  rw [dropWhile_eq_self_of_all _ cs h,
      dropWhile_eq_self_of_all _ cs.reverse (by
        intro c hc
        exact h c (List.mem_reverse.mp hc)),
      List.reverse_reverse]

theorem pad2_not_ws (n : Nat) (h : n ≤ 99) :
    ∀ c ∈ pad2 n, c.isWhitespace = false := by
  intro c hc
  rcases (by simpa [pad2] using hc : c = dch (n / 10) ∨ c = dch (n % 10)) with
    h1 | h1 <;> subst h1
  · exact dch_not_ws _ (by omega)
  · exact dch_not_ws _ (by omega)

theorem pad4_not_ws (n : Nat) (h : n ≤ 9999) :
    ∀ c ∈ pad4 n, c.isWhitespace = false := by
  intro c hc
  rcases (by simpa [pad4] using hc :
      c = dch (n / 1000) ∨ c = dch (n / 100 % 10) ∨
      c = dch (n / 10 % 10) ∨ c = dch (n % 10)) with h1 | h1 | h1 | h1 <;>
    subst h1 <;> exact dch_not_ws _ (by omega)

/-- No format renders any whitespace (digits, `'-'` and `'/'` only). -/
theorem renderFmt_not_ws (f : List FTok) (v : YMD)
    (hy : v.y ≤ 9999) (hm : v.m ≤ 99) (hd : v.d ≤ 99)
    (hlit : ∀ c, FTok.lit c ∈ f → c.isWhitespace = false) :
    ∀ c ∈ renderFmt f v, c.isWhitespace = false := by
  induction f with
  | nil => intro c hc; simp [renderFmt] at hc
  | cons t ts ih =>
      intro c hc
      rw [renderFmt, List.flatMap_cons] at hc
      rcases List.mem_append.mp hc with h1 | h1
      · cases t with
        | Y => exact pad4_not_ws _ hy c h1
        | M => exact pad2_not_ws _ hm c h1
        | D => exact pad2_not_ws _ hd c h1
        | lit c2 =>
            have hc2 : c = c2 := by simpa using h1
            subst hc2
            exact hlit c (List.mem_cons_self _ _)
      · exact ih (fun c2 hc2 => hlit c2 (List.mem_cons_of_mem _ hc2)) c h1

/-- `%Y` at the head fails on a two-digit-then-separator shape. -/
theorem mt_Y_short (ts : List FTok) (p : Nat) (sep : Char)
    (rest : List Char) (acc : YMD) (hp : p ≤ 99) (hsep : d1 sep = none) :
    matchToks (.Y :: ts) (pad2 p ++ sep :: rest) acc = none := by
  have h5 : p / 10 ≤ 9 := by omega
  have h6 : p % 10 ≤ 9 := by omega
  cases rest with
  | nil => simp only [pad2, List.cons_append, List.nil_append, matchToks]
  | cons r rs =>
      simp only [pad2, List.cons_append, List.nil_append, matchToks,
        d1_dch _ h5, d1_dch _ h6, hsep]

theorem mt_iso_on_iso (y m d : Nat) (hy : y ≤ 9999) (hm : m ≤ 99)
    (hd : d ≤ 99) (acc : YMD) :
    matchToks fmtYMDdash (pad4 y ++ '-' :: (pad2 m ++ '-' :: pad2 d)) acc =
      some ⟨y, m, d⟩ := by
  have h1 : y / 1000 ≤ 9 := by omega
  have h2 : y / 100 % 10 ≤ 9 := by omega
  have h3 : y / 10 % 10 ≤ 9 := by omega
  have h4 : y % 10 ≤ 9 := by omega
  have h5 : m / 10 ≤ 9 := by omega
  have h6 : m % 10 ≤ 9 := by omega
  have h7 : d / 10 ≤ 9 := by omega
  have h8 : d % 10 ≤ 9 := by omega
  have e1 : y / 100 / 10 = y / 1000 := by
    rw [Nat.div_div_eq_div_mul]
  have e2 : y / 10 / 10 = y / 100 := by
    rw [Nat.div_div_eq_div_mul]
  simp only [fmtYMDdash, pad4, pad2, List.cons_append, List.nil_append]
  simp only [matchToks, d1_dch _ h1, d1_dch _ h2, d1_dch _ h3, d1_dch _ h4,
    d1_dch _ h5, d1_dch _ h6, d1_dch _ h7, d1_dch _ h8,
    some_orElse2, none_orElse2, reduceIte]
  simp only [Option.some.injEq, YMD.mk.injEq]
  refine ⟨by omega, by omega, by omega⟩

theorem mt_ymds_on_ymds (y m d : Nat) (hy : y ≤ 9999) (hm : m ≤ 99)
    (hd : d ≤ 99) (acc : YMD) :
    matchToks fmtYMDslash (pad4 y ++ '/' :: (pad2 m ++ '/' :: pad2 d)) acc =
      some ⟨y, m, d⟩ := by
  have h1 : y / 1000 ≤ 9 := by omega
  have h2 : y / 100 % 10 ≤ 9 := by omega
  have h3 : y / 10 % 10 ≤ 9 := by omega
  have h4 : y % 10 ≤ 9 := by omega
  have h5 : m / 10 ≤ 9 := by omega
  have h6 : m % 10 ≤ 9 := by omega
  have h7 : d / 10 ≤ 9 := by omega
  have h8 : d % 10 ≤ 9 := by omega
  have e1 : y / 100 / 10 = y / 1000 := by
    rw [Nat.div_div_eq_div_mul]
  have e2 : y / 10 / 10 = y / 100 := by
    rw [Nat.div_div_eq_div_mul]
  simp only [fmtYMDslash, pad4, pad2, List.cons_append, List.nil_append]
  simp only [matchToks, d1_dch _ h1, d1_dch _ h2, d1_dch _ h3, d1_dch _ h4,
    d1_dch _ h5, d1_dch _ h6, d1_dch _ h7, d1_dch _ h8,
    some_orElse2, none_orElse2, reduceIte]
  simp only [Option.some.injEq, YMD.mk.injEq]
  refine ⟨by omega, by omega, by omega⟩

theorem mt_mdy_on_mdy (y m d : Nat) (hy : y ≤ 9999) (hm : m ≤ 99)
    (hd : d ≤ 99) (acc : YMD) :
    matchToks fmtMDYslash (pad2 m ++ '/' :: (pad2 d ++ '/' :: pad4 y)) acc =
      some ⟨y, m, d⟩ := by
  have h1 : y / 1000 ≤ 9 := by omega
  have h2 : y / 100 % 10 ≤ 9 := by omega
  have h3 : y / 10 % 10 ≤ 9 := by omega
  have h4 : y % 10 ≤ 9 := by omega
  have h5 : m / 10 ≤ 9 := by omega
  have h6 : m % 10 ≤ 9 := by omega
  have h7 : d / 10 ≤ 9 := by omega
  have h8 : d % 10 ≤ 9 := by omega
  have e1 : y / 100 / 10 = y / 1000 := by
    rw [Nat.div_div_eq_div_mul]
  have e2 : y / 10 / 10 = y / 100 := by
    rw [Nat.div_div_eq_div_mul]
  simp only [fmtMDYslash, pad4, pad2, List.cons_append, List.nil_append]
  simp only [matchToks, d1_dch _ h1, d1_dch _ h2, d1_dch _ h3, d1_dch _ h4,
    d1_dch _ h5, d1_dch _ h6, d1_dch _ h7, d1_dch _ h8,
    some_orElse2, none_orElse2, dch_ne_slash _ h6, dch_ne_slash _ h8,
    reduceIte]
  simp only [Option.some.injEq, YMD.mk.injEq]
  refine ⟨by omega, by omega, by omega⟩

theorem mt_dmy_on_dmy (y m d : Nat) (hy : y ≤ 9999) (hm : m ≤ 99)
    (hd : d ≤ 99) (acc : YMD) :
    matchToks fmtDMYslash (pad2 d ++ '/' :: (pad2 m ++ '/' :: pad4 y)) acc =
      some ⟨y, m, d⟩ := by
  have h1 : y / 1000 ≤ 9 := by omega
  have h2 : y / 100 % 10 ≤ 9 := by omega
  have h3 : y / 10 % 10 ≤ 9 := by omega
  have h4 : y % 10 ≤ 9 := by omega
  have h5 : m / 10 ≤ 9 := by omega
  have h6 : m % 10 ≤ 9 := by omega
  have h7 : d / 10 ≤ 9 := by omega
  have h8 : d % 10 ≤ 9 := by omega
  have e1 : y / 100 / 10 = y / 1000 := by
    rw [Nat.div_div_eq_div_mul]
  have e2 : y / 10 / 10 = y / 100 := by
    rw [Nat.div_div_eq_div_mul]
  simp only [fmtDMYslash, pad4, pad2, List.cons_append, List.nil_append]
  simp only [matchToks, d1_dch _ h1, d1_dch _ h2, d1_dch _ h3, d1_dch _ h4,
    d1_dch _ h5, d1_dch _ h6, d1_dch _ h7, d1_dch _ h8,
    some_orElse2, none_orElse2, dch_ne_slash _ h6, dch_ne_slash _ h8,
    reduceIte]
  simp only [Option.some.injEq, YMD.mk.injEq]
  refine ⟨by omega, by omega, by omega⟩

theorem mt_dmyd_on_dmyd (y m d : Nat) (hy : y ≤ 9999) (hm : m ≤ 99)
    (hd : d ≤ 99) (acc : YMD) :
    matchToks fmtDMYdash (pad2 d ++ '-' :: (pad2 m ++ '-' :: pad4 y)) acc =
      some ⟨y, m, d⟩ := by
  have h1 : y / 1000 ≤ 9 := by omega
  have h2 : y / 100 % 10 ≤ 9 := by omega
  have h3 : y / 10 % 10 ≤ 9 := by omega
  have h4 : y % 10 ≤ 9 := by omega
  have h5 : m / 10 ≤ 9 := by omega
  have h6 : m % 10 ≤ 9 := by omega
  have h7 : d / 10 ≤ 9 := by omega
  have h8 : d % 10 ≤ 9 := by omega
  have e1 : y / 100 / 10 = y / 1000 := by
    rw [Nat.div_div_eq_div_mul]
  have e2 : y / 10 / 10 = y / 100 := by
    rw [Nat.div_div_eq_div_mul]
  simp only [fmtDMYdash, pad4, pad2, List.cons_append, List.nil_append]
  simp only [matchToks, d1_dch _ h1, d1_dch _ h2, d1_dch _ h3, d1_dch _ h4,
    d1_dch _ h5, d1_dch _ h6, d1_dch _ h7, d1_dch _ h8,
    some_orElse2, none_orElse2, dch_ne_dash _ h6, dch_ne_dash _ h8,
    reduceIte]
  simp only [Option.some.injEq, YMD.mk.injEq]
  refine ⟨by omega, by omega, by omega⟩

theorem mt_mdyd_on_mdyd (y m d : Nat) (hy : y ≤ 9999) (hm : m ≤ 99)
    (hd : d ≤ 99) (acc : YMD) :
    matchToks fmtMDYdash (pad2 m ++ '-' :: (pad2 d ++ '-' :: pad4 y)) acc =
      some ⟨y, m, d⟩ := by
  have h1 : y / 1000 ≤ 9 := by omega
  have h2 : y / 100 % 10 ≤ 9 := by omega
  have h3 : y / 10 % 10 ≤ 9 := by omega
  have h4 : y % 10 ≤ 9 := by omega
  have h5 : m / 10 ≤ 9 := by omega
  have h6 : m % 10 ≤ 9 := by omega
  have h7 : d / 10 ≤ 9 := by omega
  have h8 : d % 10 ≤ 9 := by omega
  have e1 : y / 100 / 10 = y / 1000 := by
    rw [Nat.div_div_eq_div_mul]
  have e2 : y / 10 / 10 = y / 100 := by
    rw [Nat.div_div_eq_div_mul]
  simp only [fmtMDYdash, pad4, pad2, List.cons_append, List.nil_append]
  simp only [matchToks, d1_dch _ h1, d1_dch _ h2, d1_dch _ h3, d1_dch _ h4,
    d1_dch _ h5, d1_dch _ h6, d1_dch _ h7, d1_dch _ h8,
    some_orElse2, none_orElse2, dch_ne_dash _ h6, dch_ne_dash _ h8,
    reduceIte]
  simp only [Option.some.injEq, YMD.mk.injEq]
  refine ⟨by omega, by omega, by omega⟩

/-- `%m/%d/%Y` (or `%d/%m/%Y`) fails at match level on a
four-digit-year-first shape. -/
theorem mt_mdy_on_ymds (y m d : Nat) (hy : y ≤ 9999) (hm : m ≤ 99)
    (hd : d ≤ 99) (acc : YMD) :
    matchToks fmtMDYslash (pad4 y ++ '/' :: (pad2 m ++ '/' :: pad2 d)) acc =
      none := by
  have h1 : y / 1000 ≤ 9 := by omega
  have h2 : y / 100 % 10 ≤ 9 := by omega
  have h3 : y / 10 % 10 ≤ 9 := by omega
  simp only [fmtMDYslash, pad4, pad2, List.cons_append, List.nil_append]
  simp only [matchToks, d1_dch _ h1, d1_dch _ h2, d1_dch _ h3,
    some_orElse2, none_orElse2, dch_ne_slash _ h2, dch_ne_slash _ h3,
    reduceIte]

theorem mt_dmy_on_ymds (y m d : Nat) (hy : y ≤ 9999) (hm : m ≤ 99)
    (hd : d ≤ 99) (acc : YMD) :
    matchToks fmtDMYslash (pad4 y ++ '/' :: (pad2 m ++ '/' :: pad2 d)) acc =
      none := by
  have h1 : y / 1000 ≤ 9 := by omega
  have h2 : y / 100 % 10 ≤ 9 := by omega
  have h3 : y / 10 % 10 ≤ 9 := by omega
  simp only [fmtDMYslash, pad4, pad2, List.cons_append, List.nil_append]
  simp only [matchToks, d1_dch _ h1, d1_dch _ h2, d1_dch _ h3,
    some_orElse2, none_orElse2, dch_ne_slash _ h2, dch_ne_slash _ h3,
    reduceIte]

/-- The slash formats fail at match level on dash shapes. -/
theorem mt_mdy_on_dash (p q y : Nat) (hp : p ≤ 99) (hq : q ≤ 99)
    (hy : y ≤ 9999) (acc : YMD) :
    matchToks fmtMDYslash (pad2 p ++ '-' :: (pad2 q ++ '-' :: pad4 y)) acc =
      none := by
  have h5 : p / 10 ≤ 9 := by omega
  have h6 : p % 10 ≤ 9 := by omega
  simp only [fmtMDYslash, pad4, pad2, List.cons_append, List.nil_append]
  simp only [matchToks, d1_dch _ h5, d1_dch _ h6,
    some_orElse2, none_orElse2, dch_ne_slash _ h6, reduceIte]
  simp

theorem mt_dmy_on_dash (p q y : Nat) (hp : p ≤ 99) (hq : q ≤ 99)
    (hy : y ≤ 9999) (acc : YMD) :
    matchToks fmtDMYslash (pad2 p ++ '-' :: (pad2 q ++ '-' :: pad4 y)) acc =
      none := by
  have h5 : p / 10 ≤ 9 := by omega
  have h6 : p % 10 ≤ 9 := by omega
  simp only [fmtDMYslash, pad4, pad2, List.cons_append, List.nil_append]
  simp only [matchToks, d1_dch _ h5, d1_dch _ h6,
    some_orElse2, none_orElse2, dch_ne_slash _ h6, reduceIte]
  simp

theorem daysInMonth_ge_28 (y m : Nat) : 28 ≤ daysInMonth y m := by
  unfold daysInMonth
  split_ifs <;> omega

theorem daysInMonth_le_31 (y m : Nat) : daysInMonth y m ≤ 31 := by
  unfold daysInMonth
  split_ifs <;> omega

theorem valid_bounds (v : YMD) (hv : validYMD v = true) :
    1 ≤ v.y ∧ v.y ≤ 9999 ∧ 1 ≤ v.m ∧ v.m ≤ 12 ∧ 1 ≤ v.d ∧ v.d ≤ 31 := by
  unfold validYMD at hv
  simp only [Bool.and_eq_true, decide_eq_true_eq] at hv
  rcases hv with ⟨⟨⟨⟨⟨h1, h2⟩, h3⟩, h4⟩, h5⟩, h6⟩
  have h31 := daysInMonth_le_31 v.y v.m
  exact ⟨h1, h2, h3, h4, h5, by omega⟩

theorem validYMD_swap (v : YMD) (hv : validYMD v = true) (hd : v.d ≤ 12) :
    validYMD ⟨v.y, v.d, v.m⟩ = true := by
  obtain ⟨h1, h2, h3, h4, h5, h6⟩ := valid_bounds v hv
  have h28 := daysInMonth_ge_28 v.y v.d
  unfold validYMD
  simp only [Bool.and_eq_true, decide_eq_true_eq]
  exact ⟨⟨⟨⟨⟨h1, h2⟩, h5⟩, hd⟩, h3⟩, by omega⟩

theorem validYMD_swap_false (v : YMD) (hd : 12 < v.d) :
    validYMD ⟨v.y, v.d, v.m⟩ = false := by
  unfold validYMD
  rw [Bool.eq_false_iff]
  intro hc
  simp only [Bool.and_eq_true, decide_eq_true_eq] at hc
  omega

theorem tryFormat_none (f : List FTok) (cs : List Char)
    (h : matchToks f cs ⟨1900, 1, 1⟩ = none) : tryFormat f cs = none := by
  unfold tryFormat
  rw [h]

theorem tryFormat_some (f : List FTok) (cs : List Char) (v : YMD)
    (h : matchToks f cs ⟨1900, 1, 1⟩ = some v) :
    tryFormat f cs = if validYMD v then some v else none := by
  unfold tryFormat
  rw [h]

theorem tfl_cons (f : List FTok) (fs : List (List FTok)) (cs : List Char) :
    tryFormatsList (f :: fs) cs =
      match tryFormat f cs with
      | some v => some v
      | none => tryFormatsList fs cs := rfl

theorem YMD_eta (v : YMD) : (⟨v.y, v.m, v.d⟩ : YMD) = v := rfl

theorem parse_str_eq (s : String) :
    parse_bloomberg_date (.str s) =
      match tryFormatsList pyFormats (stripChars s.toList) with
      | some v => some (String.mk (isoChars v))
      | none => none := rfl

/-- Round trip through `%Y-%m-%d` (the first format tried). -/
theorem parse_shape_iso (v : YMD) (hv : validYMD v = true) :
    parse_bloomberg_date (.str (String.mk (renderFmt fmtYMDdash v))) =
      some (String.mk (isoChars v)) := by
  obtain ⟨h1, h2, h3, h4, h5, h6⟩ := valid_bounds v hv
  have hm99 : v.m ≤ 99 := by omega
  have hd99 : v.d ≤ 99 := by omega
  have hr : renderFmt fmtYMDdash v =
      pad4 v.y ++ '-' :: (pad2 v.m ++ '-' :: pad2 v.d) := rfl
  have hws := renderFmt_not_ws fmtYMDdash v h2 hm99 hd99 (by
    intro c hc
    simp only [fmtYMDdash, List.mem_cons, List.not_mem_nil, or_false] at hc
    rcases hc with h | h | h | h | h <;> first | cases h; decide | cases h
    )
  have hstrip := stripChars_id _ hws
  have hf1 : tryFormat fmtYMDdash
      (pad4 v.y ++ '-' :: (pad2 v.m ++ '-' :: pad2 v.d)) = some v := by
    rw [tryFormat_some _ _ _ (mt_iso_on_iso v.y v.m v.d h2 hm99 hd99 _),
      YMD_eta, if_pos hv]
  have h0 : tryFormatsList pyFormats
      (pad4 v.y ++ '-' :: (pad2 v.m ++ '-' :: pad2 v.d)) =
      some v := by
    simp only [pyFormats, tfl_cons, hf1]
  rw [parse_str_eq, mk_toList, hstrip, hr, h0]

/-- Round trip through `%m/%d/%Y` (only `%Y-%m-%d` is tried before it and
fails at match level). -/
theorem parse_shape_mdy (v : YMD) (hv : validYMD v = true) :
    parse_bloomberg_date (.str (String.mk (renderFmt fmtMDYslash v))) =
      some (String.mk (isoChars v)) := by
  obtain ⟨h1, h2, h3, h4, h5, h6⟩ := valid_bounds v hv
  have hm99 : v.m ≤ 99 := by omega
  have hd99 : v.d ≤ 99 := by omega
  have hr : renderFmt fmtMDYslash v =
      pad2 v.m ++ '/' :: (pad2 v.d ++ '/' :: pad4 v.y) := rfl
  have hws := renderFmt_not_ws fmtMDYslash v h2 hm99 hd99 (by
    intro c hc
    simp only [fmtMDYslash, List.mem_cons, List.not_mem_nil, or_false] at hc
    rcases hc with h | h | h | h | h <;> first | cases h; decide | cases h
    )
  have hstrip := stripChars_id _ hws
  have hf1 : tryFormat fmtYMDdash
      (pad2 v.m ++ '/' :: (pad2 v.d ++ '/' :: pad4 v.y)) = none :=
    tryFormat_none _ _ (mt_Y_short _ v.m '/' _ _ hm99 rfl)
  have hf2 : tryFormat fmtMDYslash
      (pad2 v.m ++ '/' :: (pad2 v.d ++ '/' :: pad4 v.y)) = some v := by
    rw [tryFormat_some _ _ _ (mt_mdy_on_mdy v.y v.m v.d h2 hm99 hd99 _),
      YMD_eta, if_pos hv]
  have h0 : tryFormatsList pyFormats
      (pad2 v.m ++ '/' :: (pad2 v.d ++ '/' :: pad4 v.y)) = some v := by
    simp only [pyFormats, tfl_cons, hf1, hf2]
  rw [parse_str_eq, mk_toList, hstrip, hr, h0]

/-- Round trip through `%Y/%m/%d` (the three formats tried before it all
fail at match level). -/
theorem parse_shape_ymds (v : YMD) (hv : validYMD v = true) :
    parse_bloomberg_date (.str (String.mk (renderFmt fmtYMDslash v))) =
      some (String.mk (isoChars v)) := by
  obtain ⟨h1, h2, h3, h4, h5, h6⟩ := valid_bounds v hv
  have hm99 : v.m ≤ 99 := by omega
  have hd99 : v.d ≤ 99 := by omega
  have hr : renderFmt fmtYMDslash v =
      pad4 v.y ++ '/' :: (pad2 v.m ++ '/' :: pad2 v.d) := rfl
  have hws := renderFmt_not_ws fmtYMDslash v h2 hm99 hd99 (by
    intro c hc
    simp only [fmtYMDslash, List.mem_cons, List.not_mem_nil, or_false] at hc
    rcases hc with h | h | h | h | h <;> first | cases h; decide | cases h
    )
  have hstrip := stripChars_id _ hws
  have hf1 : tryFormat fmtYMDdash
      (pad4 v.y ++ '/' :: (pad2 v.m ++ '/' :: pad2 v.d)) = none := by
    apply tryFormat_none
    have h4d : v.y / 1000 ≤ 9 := by omega
    have h4c : v.y / 100 % 10 ≤ 9 := by omega
    have h4b : v.y / 10 % 10 ≤ 9 := by omega
    have h4a : v.y % 10 ≤ 9 := by omega
    simp only [fmtYMDdash, pad4, pad2, List.cons_append, List.nil_append,
      matchToks, d1_dch _ h4d, d1_dch _ h4c, d1_dch _ h4b, d1_dch _ h4a,
      dch_ne_dash _ (by omega : v.m / 10 ≤ 9), reduceIte]
    simp
  have hf2 : tryFormat fmtMDYslash
      (pad4 v.y ++ '/' :: (pad2 v.m ++ '/' :: pad2 v.d)) = none :=
    tryFormat_none _ _ (mt_mdy_on_ymds v.y v.m v.d h2 hm99 hd99 _)
  have hf3 : tryFormat fmtDMYslash
      (pad4 v.y ++ '/' :: (pad2 v.m ++ '/' :: pad2 v.d)) = none :=
    tryFormat_none _ _ (mt_dmy_on_ymds v.y v.m v.d h2 hm99 hd99 _)
  have hf4 : tryFormat fmtYMDslash
      (pad4 v.y ++ '/' :: (pad2 v.m ++ '/' :: pad2 v.d)) = some v := by
    rw [tryFormat_some _ _ _ (mt_ymds_on_ymds v.y v.m v.d h2 hm99 hd99 _),
      YMD_eta, if_pos hv]
  have h0 : tryFormatsList pyFormats
      (pad4 v.y ++ '/' :: (pad2 v.m ++ '/' :: pad2 v.d)) = some v := by
    simp only [pyFormats, tfl_cons, hf1, hf2, hf3, hf4]
  rw [parse_str_eq, mk_toList, hstrip, hr, h0]

/-- Round trip through `%d-%m-%Y` (the four formats tried before it all
fail at match level). -/
theorem parse_shape_dmyd (v : YMD) (hv : validYMD v = true) :
    parse_bloomberg_date (.str (String.mk (renderFmt fmtDMYdash v))) =
      some (String.mk (isoChars v)) := by
  obtain ⟨h1, h2, h3, h4, h5, h6⟩ := valid_bounds v hv
  have hm99 : v.m ≤ 99 := by omega
  have hd99 : v.d ≤ 99 := by omega
  have hr : renderFmt fmtDMYdash v =
      pad2 v.d ++ '-' :: (pad2 v.m ++ '-' :: pad4 v.y) := rfl
  have hws := renderFmt_not_ws fmtDMYdash v h2 hm99 hd99 (by
    intro c hc
    simp only [fmtDMYdash, List.mem_cons, List.not_mem_nil, or_false] at hc
    rcases hc with h | h | h | h | h <;> first | cases h; decide | cases h
    )
  have hstrip := stripChars_id _ hws
  have hf1 : tryFormat fmtYMDdash
      (pad2 v.d ++ '-' :: (pad2 v.m ++ '-' :: pad4 v.y)) = none :=
    tryFormat_none _ _ (mt_Y_short _ v.d '-' _ _ hd99 rfl)
  have hf2 : tryFormat fmtMDYslash
      (pad2 v.d ++ '-' :: (pad2 v.m ++ '-' :: pad4 v.y)) = none :=
    tryFormat_none _ _ (mt_mdy_on_dash v.d v.m v.y hd99 hm99 h2 _)
  have hf3 : tryFormat fmtDMYslash
      (pad2 v.d ++ '-' :: (pad2 v.m ++ '-' :: pad4 v.y)) = none :=
    tryFormat_none _ _ (mt_dmy_on_dash v.d v.m v.y hd99 hm99 h2 _)
  have hf4 : tryFormat fmtYMDslash
      (pad2 v.d ++ '-' :: (pad2 v.m ++ '-' :: pad4 v.y)) = none :=
    tryFormat_none _ _ (mt_Y_short _ v.d '-' _ _ hd99 rfl)
  have hf5 : tryFormat fmtDMYdash
      (pad2 v.d ++ '-' :: (pad2 v.m ++ '-' :: pad4 v.y)) = some v := by
    rw [tryFormat_some _ _ _ (mt_dmyd_on_dmyd v.y v.m v.d h2 hm99 hd99 _),
      YMD_eta, if_pos hv]
  have h0 : tryFormatsList pyFormats
      (pad2 v.d ++ '-' :: (pad2 v.m ++ '-' :: pad4 v.y)) = some v := by
    simp only [pyFormats, tfl_cons, hf1, hf2, hf3, hf4, hf5]
  rw [parse_str_eq, mk_toList, hstrip, hr, h0]

/-- Round trip through `%d/%m/%Y` under the ambiguity proviso: the earlier
`%m/%d/%Y` captures the swapped date unless the swap is invalid (day > 12)
or coincides with the original (day = month). -/
theorem parse_shape_dmys (v : YMD) (hv : validYMD v = true)
    (hcond : 12 < v.d ∨ v.d = v.m) :
    parse_bloomberg_date (.str (String.mk (renderFmt fmtDMYslash v))) =
      some (String.mk (isoChars v)) := by
  obtain ⟨h1, h2, h3, h4, h5, h6⟩ := valid_bounds v hv
  have hm99 : v.m ≤ 99 := by omega
  have hd99 : v.d ≤ 99 := by omega
  have hr : renderFmt fmtDMYslash v =
      pad2 v.d ++ '/' :: (pad2 v.m ++ '/' :: pad4 v.y) := rfl
  have hws := renderFmt_not_ws fmtDMYslash v h2 hm99 hd99 (by
    intro c hc
    simp only [fmtDMYslash, List.mem_cons, List.not_mem_nil, or_false] at hc
    rcases hc with h | h | h | h | h <;> first | cases h; decide | cases h
    )
  have hstrip := stripChars_id _ hws
  have hf1 : tryFormat fmtYMDdash
      (pad2 v.d ++ '/' :: (pad2 v.m ++ '/' :: pad4 v.y)) = none :=
    tryFormat_none _ _ (mt_Y_short _ v.d '/' _ _ hd99 rfl)
  by_cases hdm : v.d = v.m
  · have hvv : (⟨v.y, v.d, v.m⟩ : YMD) = v := by
      have hx : (⟨v.y, v.d, v.m⟩ : YMD) = ⟨v.y, v.m, v.d⟩ := by rw [hdm]
      rw [hx, YMD_eta]
    have hf2 : tryFormat fmtMDYslash
        (pad2 v.d ++ '/' :: (pad2 v.m ++ '/' :: pad4 v.y)) = some v := by
      rw [tryFormat_some _ _ _ (mt_mdy_on_mdy v.y v.d v.m h2 hd99 hm99 _),
        hvv, if_pos hv]
    have h0 : tryFormatsList pyFormats
        (pad2 v.d ++ '/' :: (pad2 v.m ++ '/' :: pad4 v.y)) = some v := by
      simp only [pyFormats, tfl_cons, hf1, hf2]
    rw [parse_str_eq, mk_toList, hstrip, hr, h0]
  · have hd12 : 12 < v.d := by rcases hcond with h | h; exact h; exact absurd h hdm
    have hf2 : tryFormat fmtMDYslash
        (pad2 v.d ++ '/' :: (pad2 v.m ++ '/' :: pad4 v.y)) = none := by
      rw [tryFormat_some _ _ _ (mt_mdy_on_mdy v.y v.d v.m h2 hd99 hm99 _),
        validYMD_swap_false v hd12, if_neg (by simp)]
    have hf3 : tryFormat fmtDMYslash
        (pad2 v.d ++ '/' :: (pad2 v.m ++ '/' :: pad4 v.y)) = some v := by
      rw [tryFormat_some _ _ _ (mt_dmy_on_dmy v.y v.m v.d h2 hm99 hd99 _),
        YMD_eta, if_pos hv]
    have h0 : tryFormatsList pyFormats
        (pad2 v.d ++ '/' :: (pad2 v.m ++ '/' :: pad4 v.y)) = some v := by
      simp only [pyFormats, tfl_cons, hf1, hf2, hf3]
    rw [parse_str_eq, mk_toList, hstrip, hr, h0]

/-- Round trip through `%m-%d-%Y` under the ambiguity proviso: the earlier
`%d-%m-%Y` captures the swapped date unless the swap is invalid (day > 12)
or coincides with the original (day = month). -/
theorem parse_shape_mdyd (v : YMD) (hv : validYMD v = true)
    (hcond : 12 < v.d ∨ v.d = v.m) :
    parse_bloomberg_date (.str (String.mk (renderFmt fmtMDYdash v))) =
      some (String.mk (isoChars v)) := by
  obtain ⟨h1, h2, h3, h4, h5, h6⟩ := valid_bounds v hv
  have hm99 : v.m ≤ 99 := by omega
  have hd99 : v.d ≤ 99 := by omega
  have hr : renderFmt fmtMDYdash v =
      pad2 v.m ++ '-' :: (pad2 v.d ++ '-' :: pad4 v.y) := rfl
  have hws := renderFmt_not_ws fmtMDYdash v h2 hm99 hd99 (by
    intro c hc
    simp only [fmtMDYdash, List.mem_cons, List.not_mem_nil, or_false] at hc
    rcases hc with h | h | h | h | h <;> first | cases h; decide | cases h
    )
  have hstrip := stripChars_id _ hws
  have hf1 : tryFormat fmtYMDdash
      (pad2 v.m ++ '-' :: (pad2 v.d ++ '-' :: pad4 v.y)) = none :=
    tryFormat_none _ _ (mt_Y_short _ v.m '-' _ _ hm99 rfl)
  have hf2 : tryFormat fmtMDYslash
      (pad2 v.m ++ '-' :: (pad2 v.d ++ '-' :: pad4 v.y)) = none :=
    tryFormat_none _ _ (mt_mdy_on_dash v.m v.d v.y hm99 hd99 h2 _)
  have hf3 : tryFormat fmtDMYslash
      (pad2 v.m ++ '-' :: (pad2 v.d ++ '-' :: pad4 v.y)) = none :=
    tryFormat_none _ _ (mt_dmy_on_dash v.m v.d v.y hm99 hd99 h2 _)
  have hf4 : tryFormat fmtYMDslash
      (pad2 v.m ++ '-' :: (pad2 v.d ++ '-' :: pad4 v.y)) = none :=
    tryFormat_none _ _ (mt_Y_short _ v.m '-' _ _ hm99 rfl)
  by_cases hdm : v.d = v.m
  · have hvv : (⟨v.y, v.d, v.m⟩ : YMD) = v := by
      have hx : (⟨v.y, v.d, v.m⟩ : YMD) = ⟨v.y, v.m, v.d⟩ := by rw [hdm]
      rw [hx, YMD_eta]
    have hf5 : tryFormat fmtDMYdash
        (pad2 v.m ++ '-' :: (pad2 v.d ++ '-' :: pad4 v.y)) = some v := by
      rw [tryFormat_some _ _ _ (mt_dmyd_on_dmyd v.y v.d v.m h2 hd99 hm99 _),
        hvv, if_pos hv]
    have h0 : tryFormatsList pyFormats
        (pad2 v.m ++ '-' :: (pad2 v.d ++ '-' :: pad4 v.y)) = some v := by
      simp only [pyFormats, tfl_cons, hf1, hf2, hf3, hf4, hf5]
    rw [parse_str_eq, mk_toList, hstrip, hr, h0]
  · have hd12 : 12 < v.d := by rcases hcond with h | h; exact h; exact absurd h hdm
    have hf5 : tryFormat fmtDMYdash
        (pad2 v.m ++ '-' :: (pad2 v.d ++ '-' :: pad4 v.y)) = none := by
      rw [tryFormat_some _ _ _ (mt_dmyd_on_dmyd v.y v.d v.m h2 hd99 hm99 _),
        validYMD_swap_false v hd12, if_neg (by simp)]
    have hf6 : tryFormat fmtMDYdash
        (pad2 v.m ++ '-' :: (pad2 v.d ++ '-' :: pad4 v.y)) = some v := by
      rw [tryFormat_some _ _ _ (mt_mdyd_on_mdyd v.y v.m v.d h2 hm99 hd99 _),
        YMD_eta, if_pos hv]
    have h0 : tryFormatsList pyFormats
        (pad2 v.m ++ '-' :: (pad2 v.d ++ '-' :: pad4 v.y)) = some v := by
      simp only [pyFormats, tfl_cons, hf1, hf2, hf3, hf4, hf5, hf6]
    rw [parse_str_eq, mk_toList, hstrip, hr, h0]

/-- **C2** (corrected). `parse_bloomberg_date` maps missing values to
`None`, datetime cells to their ISO date, and strings that match none of
the six formats to `None`; a valid date rendered in `%Y-%m-%d`, `%m/%d/%Y`,
`%Y/%m/%d` or `%d-%m-%Y` always round-trips to its ISO form, but a date
rendered in `%d/%m/%Y` or `%m-%d-%Y` round-trips only when its day exceeds
12 or equals its month — otherwise an earlier ambiguous format in the trial
order captures the string with day and month swapped. -/
theorem parse_bloomberg_roundtrip (v : YMD) (hv : validYMD v = true) :
    parse_bloomberg_date .na = none ∧
    parse_bloomberg_date (.dt v) = some (String.mk (isoChars v)) ∧
    (∀ s : String, tryFormatsList pyFormats (stripChars s.toList) = none →
      parse_bloomberg_date (.str s) = none) ∧
    (∀ f ∈ [fmtYMDdash, fmtMDYslash, fmtYMDslash, fmtDMYdash],
      parse_bloomberg_date (.str (String.mk (renderFmt f v))) =
        some (String.mk (isoChars v))) ∧
    (12 < v.d ∨ v.d = v.m →
      ∀ f ∈ [fmtDMYslash, fmtMDYdash],
        parse_bloomberg_date (.str (String.mk (renderFmt f v))) =
          some (String.mk (isoChars v))) := by
  refine ⟨rfl, rfl, ?_, ?_, ?_⟩
  · intro s hs
    rw [parse_str_eq, hs]
  · intro f hf
    fin_cases hf
    · exact parse_shape_iso v hv
    · exact parse_shape_mdy v hv
    · exact parse_shape_ymds v hv
    · exact parse_shape_dmyd v hv
  · intro hcond f hf
    fin_cases hf
    · exact parse_shape_dmys v hv hcond
    · exact parse_shape_mdyd v hv hcond

theorem parse_bloomberg_roundtrip_witness :
    validYMD ⟨2024, 3, 15⟩ = true ∧
    (parse_bloomberg_date .na = none ∧
    parse_bloomberg_date (.dt ⟨2024, 3, 15⟩) =
      some (String.mk (isoChars ⟨2024, 3, 15⟩)) ∧
    (∀ s : String, tryFormatsList pyFormats (stripChars s.toList) = none →
      parse_bloomberg_date (.str s) = none) ∧
    (∀ f ∈ [fmtYMDdash, fmtMDYslash, fmtYMDslash, fmtDMYdash],
      parse_bloomberg_date (.str (String.mk (renderFmt f ⟨2024, 3, 15⟩))) =
        some (String.mk (isoChars ⟨2024, 3, 15⟩))) ∧
    ((12 : Nat) < 15 ∨ (15 : Nat) = 3 →
      ∀ f ∈ [fmtDMYslash, fmtMDYdash],
        parse_bloomberg_date (.str (String.mk (renderFmt f ⟨2024, 3, 15⟩))) =
          some (String.mk (isoChars ⟨2024, 3, 15⟩)))) :=
  ⟨by decide, parse_bloomberg_roundtrip ⟨2024, 3, 15⟩ (by decide)⟩

/-- Counterexample to the spec's unconditional claim: January 2, 2024
rendered via `%d/%m/%Y` is the string "02/01/2024", which the parser maps
to "2024-02-01" (February 1) because `%m/%d/%Y` is tried first — not to the
ISO form of the original date. -/
theorem parse_bloomberg_roundtrip_cex :
    validYMD ⟨2024, 1, 2⟩ = true ∧
    String.mk (renderFmt fmtDMYslash ⟨2024, 1, 2⟩) = "02/01/2024" ∧
    parse_bloomberg_date (.str "02/01/2024") = some "2024-02-01" ∧
    ("2024-02-01" : String) ≠ String.mk (isoChars ⟨2024, 1, 2⟩) := by
  refine ⟨by decide, by decide, by decide, by decide⟩

/-! ## C5 — fatal errors: which scripts abort, which continue -/

/-- In the consolidator, the first failing file aborts the whole loop
whatever comes after it. -/
theorem combineFiles_error_of (pre post : List MembFile) (f : MembFile)
    (e : String) (hpre : ∀ g ∈ pre, ∃ rows, combineFile g = Except.ok rows)
    (hf : combineFile f = .error e) :
    combineFiles (pre ++ f :: post) = .error e := by
  induction pre with
  | nil =>
      show combineFiles (f :: post) = .error e
      unfold combineFiles
      rw [hf]
  | cons g gs ih =>
      obtain ⟨rows, hg⟩ := hpre g (List.mem_cons_self g gs)
      have hrest := ih fun x hx => hpre x (List.mem_cons_of_mem g hx)
      show combineFiles (g :: (gs ++ f :: post)) = .error e
      unfold combineFiles
      rw [hg, hrest]

theorem runSteps_cons (s : EtlState → Except String EtlState)
    (ss : List (EtlState → Except String EtlState)) (st : EtlState) :
    runSteps (s :: ss) st =
      match s st with
      | .ok st₂ => runSteps ss st₂
      | .error e => (st, some e) := rfl

theorem runSteps_append (l1 l2 : List (EtlState → Except String EtlState))
    (st : EtlState) :
    runSteps (l1 ++ l2) st =
      match runSteps l1 st with
      | (st₁, none) => runSteps l2 st₁
      | (st₁, some e) => (st₁, some e) := by
  induction l1 generalizing st with
  | nil => rfl
  | cons s ss ih =>
      cases h : s st with
      | ok st₂ =>
          have lhs : runSteps ((s :: ss) ++ l2) st = runSteps (ss ++ l2) st₂ := by
            show runSteps (s :: (ss ++ l2)) st = _
            rw [runSteps_cons, h]
          have rhs : runSteps (s :: ss) st = runSteps ss st₂ := by
            rw [runSteps_cons, h]
          rw [lhs, rhs, ih st₂]
      | error e =>
          have lhs : runSteps ((s :: ss) ++ l2) st = (st, some e) := by
            show runSteps (s :: (ss ++ l2)) st = _
            rw [runSteps_cons, h]
          have rhs : runSteps (s :: ss) st = (st, some e) := by
            rw [runSteps_cons, h]
          rw [lhs, rhs]

/-- The fix_dates driver logs an attempt for every listed file, whatever
succeeded or failed before it. -/
theorem fixDatesMain_log (fs : FS) :
    (fixDatesMain fs).2.map Prod.fst = fixDatesFiles.map Prod.fst := by
  cases h1 : fs "financials_annual.xlsx" <;>
  cases h2 : fs "financials_quarterly.xlsx" <;>
  cases h3 : fs "financials_fiscal_annual.xlsx" <;>
  cases h4 : fs "financials_fiscal_quarterly.xlsx" <;>
  simp [fixDatesMain, fixDatesFiles, fix_date_column, h1, h2, h3, h4]

/-- Despite the first file being missing, fix_dates still rewrites and
saves the quarterly workbook. -/
theorem fixDatesMain_writes_later (fs : FS) (ws : WS)
    (hq1 : fs "financials_annual.xlsx" = none)
    (hq2 : fs "financials_quarterly.xlsx" = some ws) :
    (fixDatesMain fs).1 "financials_quarterly.xlsx" =
      some (quarterlyLoop ws 7) := by
  cases h3 : fs "financials_fiscal_annual.xlsx" <;>
  cases h4 : fs "financials_fiscal_quarterly.xlsx" <;>
  simp [fixDatesMain, fixDatesFiles, fix_date_column, hq1, hq2, h3, h4]

/-- **C5** (corrected). Fatal errors abort two of the three drivers but
not the third: in combine_memb.py the first failing file (no year in the
filename, or no Ticker column) aborts the whole loop and no output is
written; in etl_import.py's main the first failing step stops every later
import, leaving the state committed so far; but fix_dates.py catches each
file's error inside its per-file loop and continues — every listed file is
attempted and a later file is still rewritten and saved after an earlier
one failed. -/
theorem fatal_error_abort (pre post : List MembFile) (f : MembFile)
    (e : String)
    (hpre : ∀ g ∈ pre, ∃ rows, combineFile g = Except.ok rows)
    (hf : combineFile f = .error e)
    (ss1 ss2 : List (EtlState → Except String EtlState))
    (s : EtlState → Except String EtlState) (st st₁ : EtlState) (e₂ : String)
    (hs1 : runSteps ss1 st = (st₁, none)) (hs : s st₁ = .error e₂)
    (fs : FS) (ws : WS)
    (hq1 : fs "financials_annual.xlsx" = none)
    (hq2 : fs "financials_quarterly.xlsx" = some ws) :
    combine_memb (pre ++ f :: post) = .error e ∧
    runSteps (ss1 ++ s :: ss2) st = (st₁, some e₂) ∧
    (fixDatesMain fs).2.map Prod.fst = fixDatesFiles.map Prod.fst ∧
    (fixDatesMain fs).1 "financials_quarterly.xlsx" =
      some (quarterlyLoop ws 7) := by
  refine ⟨?_, ?_, fixDatesMain_log fs, fixDatesMain_writes_later fs ws hq1 hq2⟩
  · unfold combine_memb
    rw [combineFiles_error_of pre post f e hpre hf]
  · rw [runSteps_append, hs1]
    show runSteps (s :: ss2) st₁ = (st₁, some e₂)
    unfold runSteps
    rw [hs]

theorem fatal_error_abort_witness :
    combine_memb ([] ++ c5File :: []) =
      .error "Cannot find year in filename: bad.xlsx" ∧
    runSteps ([] ++ stepCreate fsgEmpty :: []) st0 =
      (st0, some "No such file: schema.sql") ∧
    (fixDatesMain fsQonly).2.map Prod.fst = fixDatesFiles.map Prod.fst ∧
    (fixDatesMain fsQonly).1 "financials_quarterly.xlsx" =
      some (quarterlyLoop wsBlank 7) :=
  fatal_error_abort [] [] c5File "Cannot find year in filename: bad.xlsx"
    (by simp) rfl [] [] (stepCreate fsgEmpty) st0 st0
    "No such file: schema.sql" rfl rfl fsQonly wsBlank rfl rfl

/-- Counterexample to the claim's "no subsequent input file is processed
and no output is written": with financials_annual.xlsx missing (a fatal
error on the first file), fix_dates.py still processes the remaining three
files and saves the rewritten quarterly workbook — its cell A7 now holds
2005-03-31 where the input held nothing. -/
theorem fatal_error_abort_cex :
    fsQonly "financials_annual.xlsx" = none ∧
    (fixDatesMain fsQonly).2 =
      [("financials_annual.xlsx", false), ("financials_quarterly.xlsx", true),
       ("financials_fiscal_annual.xlsx", false),
       ("financials_fiscal_quarterly.xlsx", false)] ∧
    ((fixDatesMain fsQonly).1 "financials_quarterly.xlsx").map
      (fun w => w 7 1) = some (XCell.d ⟨2005, 3, 31⟩) ∧
    (fsQonly "financials_quarterly.xlsx").map (fun w => w 7 1) =
      some XCell.na := by
  refine ⟨rfl, by decide, by decide, rfl⟩

end MacroAlpha
